import Mathlib

/-!
Verification development for the WhatsApp chat-to-CSV converter.

The JavaScript source (`src/app.js`) is shallowly embedded below: strings
become Lean `String`s (manipulated through their `List Char` data), the
anchored regular expressions of the source become deterministic character
parsers that mirror the regex engine's behaviour on those patterns, and
code that can throw is modelled with `Except String`.
-/

namespace WsApp

/-- The set of characters matched by JavaScript's `\s` (and trimmed by
`String.prototype.trim`): ASCII whitespace, NBSP, the Unicode `Zs` class,
line/paragraph separators and the BOM. -/
def isJsSpace (c : Char) : Bool :=
  let n := c.toNat
  n == 0x9 || n == 0xA || n == 0xB || n == 0xC || n == 0xD || n == 0x20 ||
  n == 0xA0 || n == 0x1680 || (0x2000 ≤ n && n ≤ 0x200A) ||
  n == 0x2028 || n == 0x2029 || n == 0x202F || n == 0x205F ||
  n == 0x3000 || n == 0xFEFF

/-- Drop leading JavaScript whitespace from a character list. -/
def jsDropStart : List Char → List Char
  | [] => []
  | c :: t => if isJsSpace c then jsDropStart t else c :: t

/-- `String.prototype.trimStart`. -/
def jsTrimStart (s : String) : String := ⟨jsDropStart s.data⟩

/-- `String.prototype.trimEnd`. -/
def jsTrimEnd (s : String) : String := ⟨(jsDropStart s.data.reverse).reverse⟩

/-- `String.prototype.trim`. -/
def jsTrim (s : String) : String := ⟨(jsDropStart (jsDropStart s.data).reverse).reverse⟩

/-- Longest prefix of decimal digits, together with the remaining suffix
(the behaviour of a greedy `\d+` scan). -/
def spanDigits : List Char → List Char × List Char
  | [] => ([], [])
  | c :: t =>
    if c.isDigit then
      let p := spanDigits t
      (c :: p.1, p.2)
    else ([], c :: t)

/-- Longest prefix of JavaScript whitespace (a greedy `\s*` scan). -/
def spanJsSpaces : List Char → List Char × List Char
  | [] => ([], [])
  | c :: t =>
    if isJsSpace c then
      let p := spanJsSpaces t
      (c :: p.1, p.2)
    else ([], c :: t)

/-- Numeric value of a decimal digit string (`parseInt` on an all-digit
string, as applied to the captured hour/year groups). -/
def digitsToNat (l : List Char) : Nat :=
  l.foldl (fun acc c => 10 * acc + (c.toNat - '0'.toNat)) 0

/-- `String.prototype.padStart(2, "0")`. -/
def padStart2 (s : String) : String :=
  if s.length ≥ 2 then s else ⟨List.replicate (2 - s.length) '0' ++ s.data⟩

/-- `normalizeDate`, first branch: the anchored regex
`^\d{4}-\d{2}-\d{2}$` (an already-canonical ISO date). -/
def isIsoDate (s : String) : Bool :=
  match s.data with
  | [a, b, c, d, '-', e, f, '-', g, h] =>
    a.isDigit && b.isDigit && c.isDigit && d.isDigit &&
    e.isDigit && f.isDigit && g.isDigit && h.isDigit
  | _ => false

/-- `normalizeDate`, second branch: the anchored regex
`^(\d{1,2})[\/\-](\d{1,2})[\/\-](\d{2,4})$`, returning the three captured
groups (month, day, year) on a match. -/
def matchMDY (s : String) : Option (String × String × String) :=
  let p1 := spanDigits s.data
  if p1.1.length = 0 || p1.1.length > 2 then none else
  match p1.2 with
  | s1 :: r1 =>
    if s1 = '/' || s1 = '-' then
      let p2 := spanDigits r1
      if p2.1.length = 0 || p2.1.length > 2 then none else
      match p2.2 with
      | s2 :: r2 =>
        if s2 = '/' || s2 = '-' then
          let p3 := spanDigits r2
          if 2 ≤ p3.1.length && p3.1.length ≤ 4 && p3.2 = [] then
            some (⟨p1.1⟩, ⟨p2.1⟩, ⟨p3.1⟩)
          else none
        else none
      | [] => none
    else none
  | [] => none

/-- `normalizeDate` from `src/app.js`: ISO dates pass through; `M/D/Y`
forms (also with `-` separators) are converted to `YYYY-MM-DD`, two-digit
years below 50 mapped to `20xx` and others to `19xx`; anything else passes
through unchanged. -/
def normalizeDate (dateStr : String) : String :=
  if dateStr = "" then "" else
  if isIsoDate dateStr then dateStr else
  match matchMDY dateStr with
  | some (month, day, year) =>
    let fullYear :=
      if year.length = 2 then
        if digitsToNat year.data < 50 then "20" ++ year else "19" ++ year
      else year
    fullYear ++ "-" ++ padStart2 month ++ "-" ++ padStart2 day
  | none => dateStr

/-- `normalizeTime`, first branch: the anchored regex
`^\d{1,2}:\d{2}(:\d{2})?$` (already 24-hour shaped). -/
def isHHMM (s : String) : Bool :=
  let p := spanDigits s.data
  (p.1.length == 1 || p.1.length == 2) &&
  match p.2 with
  | ':' :: m1 :: m2 :: r2 =>
    m1.isDigit && m2.isDigit &&
    (match r2 with
     | [] => true
     | ':' :: s1 :: s2 :: [] => s1.isDigit && s2.isDigit
     | _ => false)
  | _ => false

/-- The trailing group `(am|pm|a\.m\.|p\.m\.)` of `normalizeTime`'s
12-hour regex (case-insensitive, must end the string); `some true` means a
`pm` marker. -/
def matchAmPm12 : List Char → Option Bool
  | [c1, c2] =>
    if (c1 = 'a' || c1 = 'A') && (c2 = 'm' || c2 = 'M') then some false
    else if (c1 = 'p' || c1 = 'P') && (c2 = 'm' || c2 = 'M') then some true
    else none
  | [c1, d1, c2, d2] =>
    if (c1 = 'a' || c1 = 'A') && d1 = '.' && (c2 = 'm' || c2 = 'M') && d2 = '.' then some false
    else if (c1 = 'p' || c1 = 'P') && d1 = '.' && (c2 = 'm' || c2 = 'M') && d2 = '.' then some true
    else none
  | _ => none

/-- The optional seconds group `(?::(\d{2}))?` of `normalizeTime`'s
12-hour regex: takes `:SS` when well-formed, fails when a colon is
present but not followed by two digits (the regex then cannot complete),
and otherwise defaults the seconds to `"00"`. -/
def seconds12h : List Char → Option (String × List Char)
  | [] => some ("00", [])
  | c :: r =>
    if c = ':' then
      match r with
      | s1 :: s2 :: r3 =>
        if s1.isDigit && s2.isDigit then some ((⟨[s1, s2]⟩ : String), r3) else none
      | _ => none
    else some ("00", c :: r)

/-- `normalizeTime`, second branch: the anchored regex
`^(\d{1,2}):(\d{2})(?::(\d{2}))?\s*(am|pm|a\.m\.|p\.m\.)?$/i`, returning
(parsed hour, minute digits, second digits defaulted to `"00"`, optional
am/pm flag). -/
def match12h (s : String) : Option (Nat × String × String × Option Bool) :=
  let p := spanDigits s.data
  if p.1.length = 0 || p.1.length > 2 then none else
  match p.2 with
  | ':' :: m1 :: m2 :: r2 =>
    if m1.isDigit && m2.isDigit then
      match seconds12h r2 with
      | none => none
      | some (ss, r3) =>
        match (spanJsSpaces r3).2 with
        | [] => some (digitsToNat p.1, ⟨[m1, m2]⟩, ss, none)
        | ap =>
          match matchAmPm12 ap with
          | some pm => some (digitsToNat p.1, ⟨[m1, m2]⟩, ss, some pm)
          | none => none
    else none
  | _ => none

/-- `normalizeTime` from `src/app.js`: `HH:MM[:SS]` passes through;
12-hour forms convert to 24-hour `HH:MM:SS` (`pm` adds 12 except for 12,
`12 am` becomes 0); anything else passes through unchanged. -/
def normalizeTime (timeStr : String) : String :=
  if timeStr = "" then "" else
  if isHHMM timeStr then timeStr else
  match match12h timeStr with
  | some (hour, minute, second, period) =>
    let hour' :=
      if period = some true && hour ≠ 12 then hour + 12
      else if period = some false && hour = 12 then 0
      else hour
    padStart2 (toString hour') ++ ":" ++ minute ++ ":" ++ second
  | none => timeStr

/-- Characters removed by `normalizeLine`'s second replacement: the
bidirectional/invisible marks U+200E, U+200F, U+202A-U+202E,
U+2066-U+2069 and the BOM U+FEFF. -/
def isBidiMark (c : Char) : Bool :=
  let n := c.toNat
  n == 0x200E || n == 0x200F || (0x202A ≤ n && n ≤ 0x202E) ||
  (0x2066 ≤ n && n ≤ 0x2069) || n == 0xFEFF

/-- `normalizeLine` inside `parseWhatsAppTxt`: narrow no-break spaces
become plain spaces, bidirectional marks are removed, and the line is
right-trimmed. -/
def normalizeLine (s : String) : String :=
  jsTrimEnd ⟨(s.data.map (fun c => if c = '\u202F' then ' ' else c)).filter
    (fun c => !isBidiMark c)⟩

/-- The optional am/pm token of the three line-matching regexes:
`(?:a\.?m\.?|p\.?m\.?|am|pm)` (case-insensitive).  Returns the consumed
characters and the rest; `none` when the token is absent at this
position. -/
def takeAmPmDots : List Char → Option (List Char × List Char)
  | c1 :: rest =>
    if c1 = 'a' || c1 = 'A' || c1 = 'p' || c1 = 'P' then
      match rest with
      | '.' :: c2 :: '.' :: r =>
        if c2 = 'm' || c2 = 'M' then some ([c1, '.', c2, '.'], r) else none
      | '.' :: c2 :: r =>
        if c2 = 'm' || c2 = 'M' then some ([c1, '.', c2], r) else none
      | c2 :: r =>
        if c2 = 'm' || c2 = 'M' then
          match r with
          | '.' :: r2 => some ([c1, c2, '.'], r2)
          | _ => some ([c1, c2], r)
        else none
      | [] => none
    else none
  | [] => none

/-- The time sub-pattern shared by the three line-matching regexes:
`\d{1,2}:\d{2}(?::\d{2})?\s*(?:a\.?m\.?|p\.?m\.?|am|pm)?`.  Returns the
already-trimmed captured text and the remaining characters. -/
def takeLineTime (l : List Char) : Option (String × List Char) :=
  let p := spanDigits l
  if p.1.length = 0 || p.1.length > 2 then none else
  match p.2 with
  | ':' :: m1 :: m2 :: r2 =>
    if m1.isDigit && m2.isDigit then
      let withSec : Option (List Char × List Char) :=
        match r2 with
        | ':' :: s1 :: s2 :: r3 =>
          if s1.isDigit && s2.isDigit then
            some (p.1 ++ ':' :: m1 :: m2 :: [':', s1, s2], r3)
          else none
        | ':' :: _ => none
        | r3 => some (p.1 ++ [':', m1, m2], r3)
      match withSec with
      | none => none
      | some (core, r3) =>
        let sp := spanJsSpaces r3
        match takeAmPmDots sp.2 with
        | some (tok, r4) => some (⟨core ++ sp.1 ++ tok⟩, r4)
        | none => some (⟨core⟩, sp.2)
    else none
  | _ => none

/-- The `\d{4}-\d{2}-\d{2}` sub-pattern of the bracketed regexes; returns
the ten captured characters and the rest. -/
def takeIsoDate : List Char → Option (String × List Char)
  | a :: b :: c :: d :: '-' :: e :: f :: '-' :: g :: h :: rest =>
    if a.isDigit && b.isDigit && c.isDigit && d.isDigit &&
       e.isDigit && f.isDigit && g.isDigit && h.isDigit then
      some (⟨[a, b, c, d, '-', e, f, '-', g, h]⟩, rest)
    else none
  | _ => none

/-- The `\d{1,2}[\/\-]\d{1,2}[\/\-]\d{2,4}` date sub-pattern of the
dashed regex; returns the captured characters and the rest. -/
def takeSlashDate (l : List Char) : Option (String × List Char) :=
  let p1 := spanDigits l
  if p1.1.length = 0 || p1.1.length > 2 then none else
  match p1.2 with
  | s1 :: r1 =>
    if s1 = '/' || s1 = '-' then
      let p2 := spanDigits r1
      if p2.1.length = 0 || p2.1.length > 2 then none else
      match p2.2 with
      | s2 :: r2 =>
        if s2 = '/' || s2 = '-' then
          let p3 := spanDigits r2
          if 2 ≤ p3.1.length && p3.1.length ≤ 4 then
            some (⟨p1.1 ++ s1 :: (p2.1 ++ s2 :: p3.1)⟩, p3.2)
          else none
        else none
      | [] => none
    else none
  | [] => none

/-- `bracketTimeDateRe`:
`^\[(TIME)\s*,\s*(\d{4}-\d{2}-\d{2})\]\s*(.*)$` — returns
(date, time, rest) with the captures trimmed as in the source. -/
def matchBracketTimeDate (line : String) : Option (String × String × String) :=
  match line.data with
  | '[' :: l1 =>
    match takeLineTime l1 with
    | some (time, r1) =>
      match (spanJsSpaces r1).2 with
      | ',' :: r2 =>
        match takeIsoDate (spanJsSpaces r2).2 with
        | some (date, r3) =>
          match r3 with
          | ']' :: r4 => some (jsTrim date, jsTrim time, ⟨jsDropStart r4⟩)
          | _ => none
        | none => none
      | _ => none
    | none => none
  | _ => none

/-- `bracketDateTimeRe`:
`^\[(\d{4}-\d{2}-\d{2})\s*,\s*(TIME)\]\s*(.*)$` — returns
(date, time, rest).  Note the `]` must directly follow the time group. -/
def matchBracketDateTime (line : String) : Option (String × String × String) :=
  match line.data with
  | '[' :: l1 =>
    match takeIsoDate l1 with
    | some (date, r1) =>
      match (spanJsSpaces r1).2 with
      | ',' :: r2 =>
        match takeLineTime (spanJsSpaces r2).2 with
        | some (time, r3) =>
          match r3 with
          | ']' :: r4 => some (jsTrim date, jsTrim time, ⟨jsDropStart r4⟩)
          | _ => none
        | none => none
      | _ => none
    | none => none
  | _ => none

/-- `dashRe`:
`^(\d{1,2}[\/\-]\d{1,2}[\/\-]\d{2,4}),\s*(TIME)\s*-\s*(.*)$` — returns
(date, time, rest). -/
def matchDash (line : String) : Option (String × String × String) :=
  match takeSlashDate line.data with
  | some (date, r1) =>
    match r1 with
    | ',' :: r2 =>
      match takeLineTime (jsDropStart r2) with
      | some (time, r3) =>
        match (spanJsSpaces r3).2 with
        | '-' :: r4 => some (jsTrim date, jsTrim time, ⟨jsDropStart r4⟩)
        | _ => none
      | none => none
    | _ => none
  | none => none

/-- The ordered grammar cascade of `parseWhatsAppTxt`: the bracketed
time-date form, then the bracketed date-time form, then the dashed legacy
form. -/
def matchLine (line : String) : Option (String × String × String) :=
  match matchBracketTimeDate line with
  | some m => some m
  | none =>
    match matchBracketDateTime line with
    | some m => some m
    | none => matchDash line

/-- A raw message record as pushed by the segmentation loop. -/
structure Row where
  date : String
  time : String
  sender : String
  message : String
deriving Repr, DecidableEq

/-- Splitting `rest` at its first colon into sender and message
(`rest.indexOf(":")`; no colon gives an empty sender and a fully trimmed
message). -/
def senderMessageOf (rest : String) : String × String :=
  match rest.data.findIdx? (· = ':') with
  | some idx => (jsTrim ⟨rest.data.take idx⟩, jsTrimStart ⟨rest.data.drop (idx + 1)⟩)
  | none => ("", jsTrim rest)

/-- Appending a continuation line to the last record's message (or
creating an orphan record when none exists). -/
def appendContinuation : List Row → String → List Row
  | [], line => [⟨"", "", "", line⟩]
  | [r], line => [{ r with message := r.message ++ "\n" ++ line }]
  | r :: rs, line => r :: appendContinuation rs line

/-- One iteration of the segmentation loop of `parseWhatsAppTxt`: blank
raw lines are skipped; a line matching a grammar starts a new record; any
other line is folded as a continuation. -/
def segStep (rows : List Row) (raw : String) : List Row :=
  if jsTrim raw = "" then rows else
  match matchLine (normalizeLine raw) with
  | some (date, time, rest) =>
    rows ++ [⟨date, time, (senderMessageOf rest).1, (senderMessageOf rest).2⟩]
  | none => appendContinuation rows (normalizeLine raw)

/-- The global replacement `text.replace(/\r\n/g, "\n")` at character
level. -/
def stripCR : List Char → List Char
  | '\r' :: '\n' :: t => '\n' :: stripCR t
  | c :: t => c :: stripCR t
  | [] => []

/-- `String.prototype.split` with a one-character separator. -/
def splitOnChar (sep : Char) : List Char → List (List Char)
  | [] => [[]]
  | c :: t =>
    if c = sep then [] :: splitOnChar sep t
    else
      match splitOnChar sep t with
      | h :: r => (c :: h) :: r
      | [] => [[c]]

/-- Splitting the input into lines:
`text.replace(/\r\n/g, "\n").split("\n")`. -/
def jsLines (text : String) : List String :=
  (splitOnChar '\n' (stripCR text.data)).map (fun l => ⟨l⟩)

/-- The segmentation phase of `parseWhatsAppTxt` (everything before the
final `rows.map(enrichRow)`). -/
def segmentLines (text : String) : List Row :=
  (jsLines text).foldl segStep []

/-- `Array.prototype.join` with the given separator. -/
def joinWith (sep : String) : List String → String
  | [] => ""
  | [x] => x
  | x :: y :: t => x ++ sep ++ joinWith sep (y :: t)

/-- Lower-casing as applied by the case-insensitive media regexes and by
`toLowerCase` on the ASCII range (the only range the source's patterns
and filters rely on). -/
def jsToLower (s : String) : String := ⟨s.data.map Char.toLower⟩

/-- Case-insensitive check that `l` starts with the ASCII letters of
`pat`; returns the rest on success. -/
def takeCi : List Char → List Char → Option (List Char)
  | [], l => some l
  | _ :: _, [] => none
  | p :: ps, c :: cs => if c.toLower = p then takeCi ps cs else none

/-- One attempt of the `<attached: ([^>]+)>` pattern at the current
position: on success returns the capture and the characters after the
match. -/
def tryAttachedAt (l : List Char) : Option (String × List Char) :=
  match takeCi "<attached:".data l with
  | none => none
  | some r1 =>
    let sp := spanJsSpaces r1
    let content := sp.2.takeWhile (· ≠ '>')
    match sp.2.drop content.length with
    | '>' :: rest =>
      if content ≠ [] then some (⟨content⟩, rest)
      else
        match sp.1.getLast? with
        | some c => some (⟨[c]⟩, rest)
        | none => none
    | _ => none

/-- Global scan for the `<attached: ...>` pattern (`pattern.exec` loop
with the `g` flag): on a match the scan resumes after it, otherwise it
advances one character.  The fuel argument only bounds the recursion (a
match always consumes at least one character). -/
def scanAttachedAux : Nat → List Char → List String
  | 0, _ => []
  | _ + 1, [] => []
  | fuel + 1, c :: t =>
    match tryAttachedAt (c :: t) with
    | some (cap, rest) => cap :: scanAttachedAux fuel rest
    | none => scanAttachedAux fuel t

/-- All captures of the `<attached: ...>` pattern. -/
def scanAttached (l : List Char) : List String := scanAttachedAux (l.length + 1) l

/-- The extension alternation of the bracketed-filename media pattern. -/
def mediaExts : List String :=
  ["jpg", "jpeg", "png", "gif", "mp4", "avi", "mov", "pdf", "doc", "docx", "zip", "rar"]

/-- One attempt of the `\[([^\]]+\.(ext))\]` pattern at the current
position: the bracket content must be non-empty, contain a dot, and the
text after its last dot must be one of the known extensions
(case-insensitively); the capture is the whole content. -/
def tryBracketMediaAt (l : List Char) : Option (String × List Char) :=
  match l with
  | '[' :: r1 =>
    let content := r1.takeWhile (· ≠ ']')
    match r1.drop content.length with
    | ']' :: rest =>
      let parts := content.splitOn '.'
      match parts.getLast? with
      | some ext =>
        if parts.length ≥ 2 && content.take (content.length - (ext.length + 1)) ≠ [] &&
           mediaExts.contains (jsToLower ⟨ext⟩) then
          some (⟨content⟩, rest)
        else none
      | none => none
    | _ => none
  | _ => none

/-- Global scan for the bracketed-filename pattern (same loop shape as
`scanAttachedAux`). -/
def scanBracketMediaAux : Nat → List Char → List String
  | 0, _ => []
  | _ + 1, [] => []
  | fuel + 1, c :: t =>
    match tryBracketMediaAt (c :: t) with
    | some (cap, rest) => cap :: scanBracketMediaAux fuel rest
    | none => scanBracketMediaAux fuel t

/-- All captures of the bracketed-filename pattern. -/
def scanBracketMedia (l : List Char) : List String :=
  scanBracketMediaAux (l.length + 1) l

/-- `extractMediaReferences` from `src/app.js`: both patterns are scanned
over the whole message, in order, and all captures are collected. -/
def extractMediaReferences (message : String) : List String :=
  scanAttached message.data ++ scanBracketMedia message.data

/-- UTF-16 code units of a string (JavaScript's string representation;
`String.prototype.length` counts these units). -/
def utf16Units (s : String) : List Nat :=
  s.data.flatMap (fun c =>
    let n := c.toNat
    if n < 0x10000 then [n]
    else [0xD800 + (n - 0x10000) / 0x400, 0xDC00 + (n - 0x10000) % 0x400])

/-- `String.prototype.length`. -/
def jsLength (s : String) : Nat := (utf16Units s).length

/-- Number of maximal runs of non-whitespace characters — the length of
`trimmed.split(/\s+/)` for a trimmed non-empty string. -/
def countWordRuns : List Char → Bool → Nat
  | [], _ => 0
  | c :: t, inRun =>
    if isJsSpace c then countWordRuns t false
    else if inRun then countWordRuns t true
    else countWordRuns t true + 1

/-- The word count of `enrichRow`: zero for a blank message, otherwise
the number of whitespace-separated tokens of the trimmed message. -/
def wordCountOf (message : String) : Nat :=
  if jsTrim message = "" then 0 else countWordRuns (jsTrim message).data false

/-- Gregorian leap-year test. -/
def isLeapYear (y : Nat) : Bool :=
  (y % 4 == 0 && y % 100 != 0) || y % 400 == 0

/-- Days in a Gregorian month (month given 1-12). -/
def daysInMonth (y m : Nat) : Nat :=
  if m = 2 then (if isLeapYear y then 29 else 28)
  else if m = 4 || m = 6 || m = 9 || m = 11 then 30
  else 31

/-- Days before the first of the given month within a year. -/
def daysBeforeMonth (y m : Nat) : Nat :=
  (List.range (m - 1)).foldl (fun acc i => acc + daysInMonth y (i + 1)) 0

/-- Proleptic-Gregorian day index of a date; day 1 of year 1 maps to 1.
Its value modulo 7 gives the weekday with 0 = Sunday (as returned by
`Date.prototype.getDay`). -/
def dayIndex (y m d : Nat) : Nat :=
  365 * (y - 1) + (y - 1) / 4 - (y - 1) / 100 + (y - 1) / 400 +
    daysBeforeMonth y m + d

/-- The weekday-name table of `enrichRow`. -/
def dayNames : List String :=
  ["Sunday", "Monday", "Tuesday", "Wednesday", "Thursday", "Friday", "Saturday"]

/-- Modelled from the host JavaScript engine: parsing of the strings
`enrichRow` hands to `new Date(...)` (shape `YYYY-MM-DDTHH:MM:SS`); the
result is `some (year, month, day, hour, minute)` exactly when the
components form a valid calendar date-time, and `none` when the host
would produce an `Invalid Date`. -/
def jsParseDateTime (s : String) : Option (Nat × Nat × Nat × Nat × Nat) :=
  match s.data with
  | [y1, y2, y3, y4, '-', mo1, mo2, '-', d1, d2, 'T', h1, h2, ':', mi1, mi2, ':', '0', '0'] =>
    if y1.isDigit && y2.isDigit && y3.isDigit && y4.isDigit &&
       mo1.isDigit && mo2.isDigit && d1.isDigit && d2.isDigit &&
       h1.isDigit && h2.isDigit && mi1.isDigit && mi2.isDigit then
      let y := digitsToNat [y1, y2, y3, y4]
      let mo := digitsToNat [mo1, mo2]
      let d := digitsToNat [d1, d2]
      let h := digitsToNat [h1, h2]
      let mi := digitsToNat [mi1, mi2]
      if 1 ≤ mo && mo ≤ 12 && 1 ≤ d && d ≤ daysInMonth y mo && h ≤ 23 && mi ≤ 59 then
        some (y, mo, d, h, mi)
      else none
    else none
  | _ => none

/-- An enriched message record (the object literal returned by
`enrichRow`). -/
structure EnrichedRow where
  date : String
  time : String
  sender : String
  message : String
  datetime : String
  dayOfWeek : String
  hour : String
  messageLength : Nat
  wordCount : Nat
  mediaCount : Nat
  mediaFiles : String
deriving Repr, DecidableEq

/-- `enrichRow` from `src/app.js`.  When both canonical fields are
non-empty a `Date` object is always constructed; the `try` block only
guards the construction, while `datetime.toISOString()` in the returned
object literal is outside it and throws a `RangeError` on an invalid
date — modelled as `Except.error "Invalid time value"`.  The serialized
instant itself is host-timezone dependent and is modelled as the parsed
wall-clock string in UTC. -/
def enrichRow (row : Row) : Except String EnrichedRow :=
  let normalizedDate := normalizeDate row.date
  let normalizedTime := normalizeTime row.time
  let media := extractMediaReferences row.message
  let messageLength := jsLength row.message
  let wordCount := wordCountOf row.message
  let base : EnrichedRow :=
    { date := normalizedDate, time := normalizedTime,
      sender := row.sender, message := row.message,
      datetime := "", dayOfWeek := "", hour := "",
      messageLength := messageLength, wordCount := wordCount,
      mediaCount := media.length,
      mediaFiles := joinWith "; " media }
  if normalizedDate ≠ "" && normalizedTime ≠ "" then
    let parts := (splitOnChar ':' normalizedTime.data).map (fun l => (⟨l⟩ : String))
    let hours := parts.headD ""
    let minutes := (parts.drop 1).headD "undefined"
    let dtText := normalizedDate ++ "T" ++ hours ++ ":" ++ minutes ++ ":00"
    match jsParseDateTime dtText with
    | some (y, mo, d, _, _) =>
      .ok { base with
        datetime := dtText ++ ".000Z",
        dayOfWeek := (dayNames.drop (dayIndex y mo d % 7)).headD "",
        hour := hours ++ ":00" }
    | none => .error "Invalid time value"
  else .ok base

/-- `parseWhatsAppTxt` from `src/app.js`: segmentation followed by
`rows.map(enrichRow)`; a throwing enrichment aborts the whole parse. -/
def parseWhatsAppTxt (text : String) : Except String (List EnrichedRow) :=
  (segmentLines text).mapM enrichRow

/-- Lexicographic order on UTF-16 code-unit sequences — the order used by
JavaScript's `<`, `<=`, `>=` on strings. -/
def unitsLe : List Nat → List Nat → Bool
  | [], _ => true
  | _ :: _, [] => false
  | a :: as, b :: bs =>
    if a < b then true else if b < a then false else unitsLe as bs

/-- JavaScript string comparison `a <= b`. -/
def jsStrLe (a b : String) : Bool := unitsLe (utf16Units a) (utf16Units b)

/-- JavaScript string containment `a.includes(b)`. -/
def jsIncludes (a b : String) : Bool :=
  (List.range (a.data.length + 1)).any (fun i => b.data.isPrefixOf (a.data.drop i))

/-- Insertion of a key into an insertion-ordered histogram — the effect of
`obj[k] = (obj[k] || 0) + 1` on a plain-object histogram whose key order
is insertion order. -/
def bump (hist : List (String × Nat)) (k : String) : List (String × Nat) :=
  if hist.any (fun p => p.1 = k) then
    hist.map (fun p => if p.1 = k then (p.1, p.2 + 1) else p)
  else hist ++ [(k, 1)]

/-- The comparison `hist[a] > hist[b]` of the arg-max reduce, where a
missing key reads as `undefined` and any comparison with `undefined` is
false. -/
def jsGtOpt : Option Nat → Option Nat → Bool
  | some a, some b => a > b
  | _, _ => false

/-- `Object.keys(hist).reduce((a, b) => hist[a] > hist[b] ? a : b, "")`. -/
def jsArgmax (hist : List (String × Nat)) : String :=
  (hist.map (fun p => p.1)).foldl
    (fun a b => if jsGtOpt (hist.lookup a) (hist.lookup b) then a else b) ""

/-- The loop `if (field) hist[field] = (hist[field] || 0) + 1` of
`calculateStatistics`, over all records in order. -/
def histFold (f : EnrichedRow → String) (rows : List EnrichedRow) : List (String × Nat) :=
  rows.foldl (fun h r => if f r ≠ "" then bump h (f r) else h) []

/-- Insertion sort with JavaScript string order, modelling
`dates.sort()` on an array of strings. -/
def insertSorted (x : String) : List String → List String
  | [] => [x]
  | y :: t => if jsStrLe x y then x :: y :: t else y :: insertSorted x t

/-- Stable sort of strings in JavaScript order. -/
def jsSortStrings : List String → List String
  | [] => []
  | x :: t => insertSorted x (jsSortStrings t)

/-- `Math.round(a / b)` for non-negative integers (round half up). -/
def jsRoundDiv (a b : Nat) : Nat :=
  if b = 0 then 0 else (2 * a + b) / (2 * b)

/-- The statistics object of `calculateStatistics`. -/
structure Stats where
  totalMessages : Nat
  uniqueSenders : Nat
  dateRangeStart : Option String
  dateRangeEnd : Option String
  messagesPerSender : List (String × Nat)
  totalWords : Nat
  totalCharacters : Nat
  averageMessageLength : Nat
  mostActiveDay : List (String × Nat)
  mostActiveHour : List (String × Nat)
  mediaCount : Nat
  mostActiveDayName : String
  mostActiveHourValue : String
deriving Repr, DecidableEq

/-- `calculateStatistics` from `src/app.js`: a single pass accumulating
per-sender, per-weekday and per-hour histograms, date list, word/char and
media totals, followed by the mean and the two arg-max reductions. -/
def calculateStatistics (rows : List EnrichedRow) : Stats :=
  let senders := histFold (fun r => r.sender) rows
  let dates := (rows.filter (fun r => r.date ≠ "")).map (fun r => r.date)
  let dayHist := histFold (fun r => r.dayOfWeek) rows
  let hourHist := histFold (fun r => r.hour) rows
  let totalWords := rows.foldl (fun acc r => acc + r.wordCount) 0
  let totalCharacters := rows.foldl (fun acc r => acc + r.messageLength) 0
  let mediaCount := rows.foldl (fun acc r => acc + r.mediaCount) 0
  let sorted := jsSortStrings dates
  { totalMessages := rows.length,
    uniqueSenders := ((rows.map (fun r => r.sender)).filter (fun s => s ≠ "")).eraseDups.length,
    dateRangeStart := sorted.head?,
    dateRangeEnd := sorted.getLast?,
    messagesPerSender := senders,
    totalWords := totalWords,
    totalCharacters := totalCharacters,
    averageMessageLength :=
      if rows.length > 0 then jsRoundDiv totalCharacters rows.length else 0,
    mostActiveDay := dayHist,
    mostActiveHour := hourHist,
    mediaCount := mediaCount,
    mostActiveDayName := jsArgmax dayHist,
    mostActiveHourValue := jsArgmax hourHist }

/-- The filter specification of `filterRows`; an empty string models an
absent (or empty, equally falsy) criterion. -/
structure Filters where
  sender : String
  dateFrom : String
  dateTo : String
  keyword : String
deriving Repr, DecidableEq

/-- `filterRows` from `src/app.js`: sender equality (skipped for `"all"`),
inclusive date-range comparison with JavaScript string order, and
case-insensitive keyword containment in message or sender. -/
def filterRows (rows : List EnrichedRow) (filters : Filters) : List EnrichedRow :=
  let f1 :=
    if filters.sender ≠ "" && filters.sender ≠ "all" then
      rows.filter (fun r => r.sender = filters.sender)
    else rows
  let f2 :=
    if filters.dateFrom ≠ "" then
      f1.filter (fun r => jsStrLe filters.dateFrom r.date)
    else f1
  let f3 :=
    if filters.dateTo ≠ "" then
      f2.filter (fun r => jsStrLe r.date filters.dateTo)
    else f2
  if filters.keyword ≠ "" then
    f3.filter (fun r =>
      jsIncludes (jsToLower r.message) (jsToLower filters.keyword) ||
      jsIncludes (jsToLower r.sender) (jsToLower filters.keyword))
  else f3

/-- Doubling of quote characters — `String(value).replace(/"/g, '""')`. -/
def escChars : List Char → List Char
  | [] => []
  | c :: t => if c = '"' then '"' :: '"' :: escChars t else c :: escChars t

/-- `escapeCsv` from `src/app.js`: the value is always wrapped in quotes,
with internal quotes doubled. -/
def escapeCsv (value : String) : String :=
  "\"" ++ (⟨escChars value.data⟩ : String) ++ "\""

/-- The projection `r[col] ?? ""` followed by JavaScript's string
coercion (numeric fields print in decimal; unknown column names give the
empty string). -/
def fieldValue (r : EnrichedRow) (col : String) : String :=
  if col = "date" then r.date
  else if col = "time" then r.time
  else if col = "sender" then r.sender
  else if col = "message" then r.message
  else if col = "datetime" then r.datetime
  else if col = "dayOfWeek" then r.dayOfWeek
  else if col = "hour" then r.hour
  else if col = "messageLength" then toString r.messageLength
  else if col = "wordCount" then toString r.wordCount
  else if col = "mediaCount" then toString r.mediaCount
  else if col = "mediaFiles" then r.mediaFiles
  else ""

/-- `toCsv` from `src/app.js`: a header row of escaped column names, one
escaped row per record, rows joined by newlines and fields by the
configurable delimiter. -/
def toCsv (rows : List EnrichedRow)
    (columns : List String := ["date", "time", "sender", "message"])
    (delimiter : String := ",") : String :=
  joinWith "\n" (joinWith delimiter (columns.map escapeCsv) ::
    rows.map (fun r => joinWith delimiter ((columns.map (fieldValue r)).map escapeCsv)))

/-- Two-digit lowercase hex of a byte (for `\u00XX` escapes). -/
def hexByte (n : Nat) : String :=
  let digit (k : Nat) : Char := if k < 10 then Char.ofNat ('0'.toNat + k)
    else Char.ofNat ('a'.toNat + (k - 10))
  ⟨[digit (n / 16 % 16), digit (n % 16)]⟩

/-- JSON string escaping as performed by `JSON.stringify`. -/
def jsonEscape (s : String) : String :=
  ⟨s.data.flatMap (fun c =>
    if c = '"' then ['\\', '"']
    else if c = '\\' then ['\\', '\\']
    else if c = '\n' then ['\\', 'n']
    else if c = '\r' then ['\\', 'r']
    else if c = '\t' then ['\\', 't']
    else if c.toNat = 8 then ['\\', 'b']
    else if c.toNat = 12 then ['\\', 'f']
    else if c.toNat < 0x20 then '\\' :: 'u' :: '0' :: '0' :: (hexByte c.toNat).data
    else [c])⟩

/-- A quoted JSON string literal. -/
def jsonStr (s : String) : String := "\"" ++ jsonEscape s ++ "\""

/-- One record as pretty-printed by `JSON.stringify(rows, null, 2)`
inside the array (keys in object-literal insertion order). -/
def rowJson (r : EnrichedRow) : String :=
  "  \x7b\n" ++ joinWith ",\n"
    [ "    \"date\": " ++ jsonStr r.date,
      "    \"time\": " ++ jsonStr r.time,
      "    \"sender\": " ++ jsonStr r.sender,
      "    \"message\": " ++ jsonStr r.message,
      "    \"datetime\": " ++ jsonStr r.datetime,
      "    \"dayOfWeek\": " ++ jsonStr r.dayOfWeek,
      "    \"hour\": " ++ jsonStr r.hour,
      "    \"messageLength\": " ++ toString r.messageLength,
      "    \"wordCount\": " ++ toString r.wordCount,
      "    \"mediaCount\": " ++ toString r.mediaCount,
      "    \"mediaFiles\": " ++ jsonStr r.mediaFiles ] ++ "\n  \x7d"

/-- `toJson` from `src/app.js`: `JSON.stringify(rows, null, 2)`. -/
def toJson (rows : List EnrichedRow) : String :=
  if rows = [] then "[]"
  else "[\n" ++ joinWith ",\n" (rows.map rowJson) ++ "\n]"

/-- Cell escaping of `toHtml`: only `<` and `>` are replaced. -/
def htmlEscapeCell (s : String) : String :=
  ⟨s.data.flatMap (fun c =>
    if c = '<' then "&lt;".data else if c = '>' then "&gt;".data else [c])⟩

/-- `toHtml` from `src/app.js`: the fixed page template with a header row
and one `<tr>` per record. -/
def toHtml (rows : List EnrichedRow)
    (columns : List String := ["date", "time", "sender", "message"]) : String :=
  "\n    <!DOCTYPE html>\n    <html>\n    <head>\n      <meta charset=\"utf-8\">\n      <title>WhatsApp Chat Export</title>\n      <style>\n        body \x7b font-family: Arial, sans-serif; margin: 20px; \x7d\n        table \x7b border-collapse: collapse; width: 100%; \x7d\n        th, td \x7b border: 1px solid #ddd; padding: 8px; text-align: left; \x7d\n        th \x7b background-color: #4f46e5; color: white; \x7d\n        tr:nth-child(even) \x7b background-color: #f2f2f2; \x7d\n      </style>\n    </head>\n    <body>\n      <h1>WhatsApp Chat Export</h1>\n      <table>\n        <thead>\n          <tr>"
  ++ joinWith "" (columns.map (fun c => "<th>" ++ c ++ "</th>"))
  ++ "</tr>\n        </thead>\n        <tbody>\n  "
  ++ joinWith "" (rows.map (fun r =>
       "<tr>" ++ joinWith "" (columns.map (fun col =>
         "<td>" ++ htmlEscapeCell (fieldValue r col) ++ "</td>")) ++ "</tr>"))
  ++ "\n        </tbody>\n      </table>\n    </body>\n    </html>\n  "

/-- A stored session (one entry of the `downloads` map). -/
structure Session where
  rows : List EnrichedRow
  stats : Stats
  baseName : String
  filesProcessed : Nat
  createdAt : Nat
deriving Repr, DecidableEq

/-- The session store: the `downloads` map with its (unique) keys. -/
abbrev Store := List (String × Session)

/-- The response of the `/download/:id` route. -/
inductive DownloadResult where
  | expiredPage
  | fileResponse (contentType filename content : String)
  | excelResponse (filename : String) (cells : List (List String))
deriving Repr, DecidableEq

/-- The `GET /download/:id` handler of `src/app.js` as a transition on
the session store.  An unknown identifier serves the expired page and
leaves the store unchanged; the json/html/csv branches delete the session
before responding; the excel branch returns the rendered workbook
(modelled as its projected cells) before reaching the delete, leaving the
session stored. -/
def downloadHandler (store : Store) (id : String) (format : String)
    (filters : Filters) (columns : List String) (delimiter : String) :
    DownloadResult × Store :=
  match store.lookup id with
  | none => (.expiredPage, store)
  | some item =>
    let filtered := filterRows item.rows filters
    let baseName := if item.baseName = "" then "chat" else item.baseName
    if format = "json" then
      (.fileResponse "application/json" (baseName ++ ".json") (toJson filtered),
       store.filter (fun p => p.1 ≠ id))
    else if format = "excel" || format = "xlsx" then
      (.excelResponse (baseName ++ ".xlsx")
        (columns :: filtered.map (fun r => columns.map (fieldValue r))), store)
    else if format = "html" then
      (.fileResponse "text/html" (baseName ++ ".html") (toHtml filtered columns),
       store.filter (fun p => p.1 ≠ id))
    else
      (.fileResponse "text/csv" (baseName ++ ".csv") (toCsv filtered columns delimiter),
       store.filter (fun p => p.1 ≠ id))

/-! ## Claim-side reference definitions -/

/-- The per-line visible contribution of a non-blank input line: for a
line matched by a timestamp grammar, the message part that remains after
the timestamp/sender prefix is stripped; for any other line, the
normalized line itself. -/
def lineContribution (raw : String) : String :=
  match matchLine (normalizeLine raw) with
  | some (_, _, rest) => (senderMessageOf rest).2
  | none => normalizeLine raw

/-- Join a list of strings with single newlines (no separator for a
singleton, empty for the empty list). -/
def joinNL : List String → String
  | [] => ""
  | [x] => x
  | x :: y :: t => x ++ "\n" ++ joinNL (y :: t)

/-- The non-blank raw lines of an input (the lines the segmentation loop
does not skip). -/
def nonBlankLines (text : String) : List String :=
  (jsLines text).filter (fun raw => jsTrim raw ≠ "")

/-- Largest count occurring in a histogram. -/
def maxCount (hist : List (String × Nat)) : Nat :=
  hist.foldl (fun m p => max m p.2) 0

/-- Reference arg-max: the label of the LAST entry attaining the maximal
count, the empty string for an empty histogram. -/
def lastArgmax (hist : List (String × Nat)) : String :=
  match (hist.filter (fun p => p.2 = maxCount hist)).getLast? with
  | some p => p.1
  | none => ""

/-- Reference delimited-text reader: a quote-aware scanner that splits on
the declared delimiter and on record newlines outside quotes, and
un-escapes doubled quotes inside them.  State: in-quotes flag, remaining
characters, current field, current record, finished records. -/
def csvScan (d : Char) : Bool → List Char → List Char → List String →
    List (List String) → List (List String)
  | true, [], cur, fields, recs => recs ++ [fields ++ [⟨cur⟩]]
  | true, c :: rest, cur, fields, recs =>
    if c = '"' then
      match rest with
      | [] => recs ++ [fields ++ [⟨cur⟩]]
      | c2 :: rest2 =>
        if c2 = '"' then csvScan d true rest2 (cur ++ ['"']) fields recs
        else csvScan d false (c2 :: rest2) cur fields recs
    else csvScan d true rest (cur ++ [c]) fields recs
  | false, [], cur, fields, recs => recs ++ [fields ++ [⟨cur⟩]]
  | false, c :: rest, cur, fields, recs =>
    if c = d then csvScan d false rest [] (fields ++ [⟨cur⟩]) recs
    else if c = '\n' then csvScan d false rest [] [] (recs ++ [fields ++ [⟨cur⟩]])
    else if c = '"' then csvScan d true rest cur fields recs
    else csvScan d false rest (cur ++ [c]) fields recs
termination_by _ l _ _ _ => l.length
decreasing_by all_goals simp_arith

/-- Reading a whole delimited-text payload back into records of fields. -/
def parseCsv (d : Char) (s : String) : List (List String) :=
  csvScan d false s.data [] [] []

/-- The character sequence of one written field. -/
def escapedField (v : String) : List Char :=
  '"' :: (escChars v.data ++ ['"'])

/-- The character sequence of one written record line. -/
def lineOf (d : Char) : List String → List Char
  | [] => []
  | [v] => escapedField v
  | v :: w :: t => escapedField v ++ d :: lineOf d (w :: t)

/-- The character sequence of the whole written payload. -/
def linesOf (d : Char) : List (List String) → List Char
  | [] => []
  | [vs] => lineOf d vs
  | vs :: ws :: t => lineOf d vs ++ '\n' :: linesOf d (ws :: t)

/-- Newline-prefixed join: the text a suffix of contributions adds after
an already non-empty prefix. -/
def prefixNL (l : List String) : String :=
  match l with
  | [] => ""
  | _ => "\n" ++ joinNL l

theorem joinNL_cons (x : String) (l : List String) :
    joinNL (x :: l) = x ++ prefixNL l := by
  cases l with
  | nil => exact (String.append_empty x).symm
  | cons y t => exact String.append_assoc x "\n" (joinNL (y :: t))

theorem joinNL_cons2 (a b : String) (l : List String) :
    joinNL (a :: b :: l) = a ++ "\n" ++ joinNL (b :: l) := rfl

theorem joinNL_concat (l : List String) (x : String) (h : l ≠ []) :
    joinNL (l ++ [x]) = joinNL l ++ "\n" ++ x := by
  induction l with
  | nil => exact absurd rfl h
  | cons y t ih =>
    cases t with
    | nil => rfl
    | cons z t2 =>
      have ih2 := ih (by simp)
      simp only [List.cons_append] at ih2 ⊢
      rw [joinNL_cons2, ih2, joinNL_cons2]
      refine String.ext ?_
      simp [String.data_append, List.append_assoc]

theorem appendContinuation_ne_nil (rows : List Row) (line : String) :
    appendContinuation rows line ≠ [] := by
  cases rows with
  | nil => simp [appendContinuation]
  | cons r rs =>
    cases rs with
    | nil => simp [appendContinuation]
    | cons r2 rs2 => simp [appendContinuation]

theorem appendContinuation_join (line : String) :
    ∀ rows : List Row, rows ≠ [] →
      joinNL ((appendContinuation rows line).map Row.message) =
        joinNL (rows.map Row.message) ++ "\n" ++ line
  | [], h => absurd rfl h
  | [r], _ => rfl
  | r :: r2 :: rs, _ => by
    have ihres := appendContinuation_join line (r2 :: rs) (by simp)
    rcases hcons : appendContinuation (r2 :: rs) line with _ | ⟨y, t⟩
    · exact absurd hcons (appendContinuation_ne_nil _ _)
    · show joinNL ((r :: appendContinuation (r2 :: rs) line).map Row.message) = _
      rw [hcons] at ihres ⊢
      simp only [List.map_cons, joinNL_cons2] at ihres ⊢
      rw [ihres]
      refine String.ext ?_
      simp [String.data_append, List.append_assoc]

/-- The filtered-and-mapped contribution list of a line sequence. -/
def contribs (lines : List String) : List String :=
  (lines.filter (fun raw => jsTrim raw ≠ "")).map lineContribution

theorem contribs_cons_blank {raw : String} (rest : List String)
    (h : jsTrim raw = "") : contribs (raw :: rest) = contribs rest := by
  simp [contribs, List.filter, h]

theorem contribs_cons_text {raw : String} (rest : List String)
    (h : ¬jsTrim raw = "") :
    contribs (raw :: rest) = lineContribution raw :: contribs rest := by
  simp [contribs, List.filter, h]

theorem segStep_blank {raw : String} (rows : List Row) (h : jsTrim raw = "") :
    segStep rows raw = rows := by
  simp [segStep, h]

theorem segStep_matched {raw d t rest : String}
    (hb : ¬jsTrim raw = "")
    (hm : matchLine (normalizeLine raw) = some (d, t, rest)) (rows : List Row) :
    segStep rows raw =
      rows ++ [⟨d, t, (senderMessageOf rest).1, (senderMessageOf rest).2⟩] := by
  unfold segStep
  rw [if_neg hb, hm]

theorem segStep_unmatched {raw : String}
    (hb : ¬jsTrim raw = "")
    (hm : matchLine (normalizeLine raw) = none) (rows : List Row) :
    segStep rows raw = appendContinuation rows (normalizeLine raw) := by
  unfold segStep
  rw [if_neg hb, hm]

theorem segStep_ne_nil {raw : String} (rows : List Row) (h : rows ≠ []) :
    segStep rows raw ≠ [] := by
  by_cases hb : jsTrim raw = ""
  · rw [segStep_blank rows hb]; exact h
  · cases hm : matchLine (normalizeLine raw) with
    | none =>
      rw [segStep_unmatched hb hm rows]
      exact appendContinuation_ne_nil rows _
    | some m =>
      obtain ⟨d, t, rest2⟩ := m
      rw [segStep_matched hb hm rows]
      simp

theorem segStep_nil_ne_nil {raw : String} (h : ¬jsTrim raw = "") :
    segStep [] raw ≠ [] := by
  cases hm : matchLine (normalizeLine raw) with
  | none =>
    rw [segStep_unmatched h hm []]
    exact appendContinuation_ne_nil [] _
  | some m =>
    obtain ⟨d, t, rest2⟩ := m
    rw [segStep_matched h hm []]
    simp

theorem lineContribution_of_matched {raw : String} {d t rest : String}
    (hm : matchLine (normalizeLine raw) = some (d, t, rest)) :
    lineContribution raw = (senderMessageOf rest).2 := by
  unfold lineContribution
  rw [hm]

theorem lineContribution_of_unmatched {raw : String}
    (hm : matchLine (normalizeLine raw) = none) :
    lineContribution raw = normalizeLine raw := by
  unfold lineContribution
  rw [hm]

theorem prefixNL_cons (c : String) (l : List String) :
    prefixNL (c :: l) = "\n" ++ (c ++ prefixNL l) := by
  have h0 : prefixNL (c :: l) = "\n" ++ joinNL (c :: l) := rfl
  rw [h0, joinNL_cons]

theorem seg_foldl_join :
    ∀ (lines : List String) (rows : List Row), rows ≠ [] →
      joinNL ((lines.foldl segStep rows).map Row.message) =
        joinNL (rows.map Row.message) ++ prefixNL (contribs lines)
  | [], rows, _ => (String.append_empty _).symm
  | raw :: rest, rows, h => by
    rw [List.foldl_cons]
    by_cases hb : jsTrim raw = ""
    · rw [segStep_blank rows hb, contribs_cons_blank rest hb]
      exact seg_foldl_join rest rows h
    · rw [contribs_cons_text rest hb]
      cases hm : matchLine (normalizeLine raw) with
      | none =>
        rw [segStep_unmatched hb hm rows,
          seg_foldl_join rest (appendContinuation rows (normalizeLine raw))
            (appendContinuation_ne_nil rows _),
          appendContinuation_join (normalizeLine raw) rows h,
          lineContribution_of_unmatched hm, prefixNL_cons]
        refine String.ext ?_
        simp [String.data_append, List.append_assoc]
      | some m =>
        obtain ⟨d, t, rest2⟩ := m
        have hrec := seg_foldl_join rest
          (rows ++ [(⟨d, t, (senderMessageOf rest2).1, (senderMessageOf rest2).2⟩ : Row)])
          (by simp)
        rw [segStep_matched hb hm rows, hrec,
          List.map_append, List.map_cons, List.map_nil,
          joinNL_concat _ _ (by simpa using h),
          lineContribution_of_matched hm, prefixNL_cons]
        refine String.ext ?_
        simp [String.data_append, List.append_assoc]

theorem seg_foldl_join_nil :
    ∀ lines : List String,
      joinNL ((lines.foldl segStep []).map Row.message) = joinNL (contribs lines)
  | [] => rfl
  | raw :: rest => by
    rw [List.foldl_cons]
    by_cases hb : jsTrim raw = ""
    · rw [segStep_blank [] hb, contribs_cons_blank rest hb]
      exact seg_foldl_join_nil rest
    · rw [contribs_cons_text rest hb]
      cases hm : matchLine (normalizeLine raw) with
      | none =>
        rw [segStep_unmatched hb hm [],
          seg_foldl_join rest (appendContinuation [] (normalizeLine raw))
            (appendContinuation_ne_nil [] _),
          lineContribution_of_unmatched hm, joinNL_cons]
        rfl
      | some m =>
        obtain ⟨d, t, rest2⟩ := m
        have hrec := seg_foldl_join rest
          ([] ++ [(⟨d, t, (senderMessageOf rest2).1, (senderMessageOf rest2).2⟩ : Row)])
          (by simp)
        rw [segStep_matched hb hm [], hrec,
          lineContribution_of_matched hm, joinNL_cons]
        rfl

theorem seg_foldl_ne_nil :
    ∀ (lines : List String) (rows : List Row),
      rows ≠ [] ∨ (∃ raw ∈ lines, jsTrim raw ≠ "") →
      lines.foldl segStep rows ≠ []
  | [], rows, h => by
    rcases h with h | ⟨raw, hmem, _⟩
    · exact h
    · cases hmem
  | raw :: rest, rows, h => by
    rw [List.foldl_cons]
    by_cases hrows : rows = []
    · subst hrows
      rcases h with h | ⟨raw2, hmem, hnb⟩
      · exact absurd rfl h
      · by_cases hb : jsTrim raw = ""
        · rw [segStep_blank [] hb]
          refine seg_foldl_ne_nil rest [] (Or.inr ⟨raw2, ?_, hnb⟩)
          rcases List.mem_cons.mp hmem with rfl | hmem2
          · exact absurd hb hnb
          · exact hmem2
        · exact seg_foldl_ne_nil rest _ (Or.inl (segStep_nil_ne_nil hb))
    · exact seg_foldl_ne_nil rest _ (Or.inl (segStep_ne_nil rows hrows))

theorem mk_data (v : String) : (⟨v.data⟩ : String) = v := by
  cases v
  rfl

theorem ne_empty_of_data_ne_nil {s : String} (h : s.data ≠ []) : s ≠ "" := by
  intro he
  subst he
  exact h rfl

theorem spanDigits_digits : ∀ l : List Char, ∀ c ∈ (spanDigits l).1, c.isDigit := by
  intro l
  induction l with
  | nil => intro c hc; cases hc
  | cons a t ih =>
    intro c hc
    by_cases ha : a.isDigit
    · rw [show spanDigits (a :: t) = (a :: (spanDigits t).1, (spanDigits t).2) by
        simp [spanDigits, ha]] at hc
      rcases List.mem_cons.mp hc with rfl | hc2
      · exact ha
      · exact ih c hc2
    · rw [show spanDigits (a :: t) = ([], a :: t) by simp [spanDigits, ha]] at hc
      cases hc

theorem spanDigits_append (ds rest : List Char)
    (hds : ∀ c ∈ ds, c.isDigit = true)
    (hrest : ∀ c r, rest = c :: r → c.isDigit = false) :
    spanDigits (ds ++ rest) = (ds, rest) := by
  induction ds with
  | nil =>
    cases rest with
    | nil => rfl
    | cons c r => simp [spanDigits, hrest c r rfl]
  | cons a t ih =>
    have ha := hds a (List.mem_cons_self a t)
    simp [spanDigits, ha, ih (fun c hc => hds c (List.mem_cons_of_mem a hc))]

theorem spanJsSpaces_append (sp rest : List Char)
    (hsp : ∀ c ∈ sp, isJsSpace c = true)
    (hrest : ∀ c r, rest = c :: r → isJsSpace c = false) :
    spanJsSpaces (sp ++ rest) = (sp, rest) := by
  induction sp with
  | nil =>
    cases rest with
    | nil => rfl
    | cons c r => simp [spanJsSpaces, hrest c r rfl]
  | cons a t ih =>
    have ha := hsp a (List.mem_cons_self a t)
    simp [spanJsSpaces, ha, ih (fun c hc => hsp c (List.mem_cons_of_mem a hc))]

theorem isDigit_bounds {c : Char} (h : c.isDigit = true) :
    48 ≤ c.toNat ∧ c.toNat ≤ 57 := by
  simp only [Char.isDigit, Bool.and_eq_true, decide_eq_true_eq] at h
  exact ⟨h.1, h.2⟩

theorem digitsToNat_le99 : ∀ l : List Char, (∀ c ∈ l, c.isDigit) →
    l.length ≤ 2 → digitsToNat l ≤ 99 := by
  intro l hd hl
  match l, hl with
  | [], _ => exact Nat.zero_le 99
  | [a], _ =>
    have ha := isDigit_bounds (hd a (List.mem_cons_self a []))
    show 10 * 0 + (a.toNat - 48) ≤ 99
    omega
  | [a, b], _ =>
    have ha := isDigit_bounds (hd a (by simp))
    have hb := isDigit_bounds (hd b (by simp))
    show 10 * (10 * 0 + (a.toNat - 48)) + (b.toNat - 48) ≤ 99
    omega

set_option maxHeartbeats 1000000 in
theorem padFact : ∀ n : Nat, n < 112 →
    (padStart2 (toString n)).data.all Char.isDigit ∧
    ((n < 100 ∧ (padStart2 (toString n)).data.length = 2) ∨
     (100 ≤ n ∧ (padStart2 (toString n)).data.length = 3)) := by decide

theorem isHHMM_true_of_data {s : String} {hs : List Char} {m1 m2 : Char}
    {secPart : List Char}
    (hdata : s.data = hs ++ ':' :: m1 :: m2 :: secPart)
    (h1 : hs ≠ []) (h2 : hs.length ≤ 2) (h3 : ∀ c ∈ hs, c.isDigit = true)
    (h4 : m1.isDigit = true) (h5 : m2.isDigit = true)
    (h6 : secPart = [] ∨
      ∃ s1 s2, secPart = [':', s1, s2] ∧ s1.isDigit = true ∧ s2.isDigit = true) :
    isHHMM s = true := by
  unfold isHHMM
  rw [hdata, spanDigits_append hs _ h3 (fun c r he => by cases he; decide)]
  have hpos : 1 ≤ hs.length := List.length_pos.mpr h1
  have hlen : (hs.length == 1 || hs.length == 2) = true := by
    rcases Nat.lt_or_ge hs.length 2 with hc | hc
    · have : hs.length = 1 := by omega
      simp [this]
    · have : hs.length = 2 := by omega
      simp [this]
  rcases h6 with rfl | ⟨s1, s2, rfl, hs1, hs2⟩
  · simp [hlen, h4, h5]
  · simp [hlen, h4, h5, hs1, hs2]

theorem isHHMM_false_of_long {s : String} {hs rest : List Char}
    (hdata : s.data = hs ++ rest) (h3 : ∀ c ∈ hs, c.isDigit = true)
    (hlen : 3 ≤ hs.length)
    (hrest : ∀ c r, rest = c :: r → c.isDigit = false) :
    isHHMM s = false := by
  unfold isHHMM
  rw [hdata, spanDigits_append hs rest h3 hrest]
  have e1 : (hs.length == 1) = false := by
    simp only [beq_eq_false_iff_ne, ne_eq]
    omega
  have e2 : (hs.length == 2) = false := by
    simp only [beq_eq_false_iff_ne, ne_eq]
    omega
  simp [e1, e2]

theorem match12h_none_of_long {s : String} {hs rest : List Char}
    (hdata : s.data = hs ++ rest) (h3 : ∀ c ∈ hs, c.isDigit = true)
    (hlen : 3 ≤ hs.length)
    (hrest : ∀ c r, rest = c :: r → c.isDigit = false) :
    match12h s = none := by
  unfold match12h
  rw [hdata, spanDigits_append hs rest h3 hrest]
  have hg : ((hs.length = 0 || hs.length > 2) = true) := by
    simp only [Bool.or_eq_true, decide_eq_true_eq]
    omega
  rw [if_pos hg]

theorem seconds12h_inv {r2 : List Char} {ss : String} {r3 : List Char}
    (h : seconds12h r2 = some (ss, r3)) :
    ∃ s1 s2, ss = (⟨[s1, s2]⟩ : String) ∧ s1.isDigit = true ∧ s2.isDigit = true := by
  have h00 : ("00" : String) = (⟨['0', '0']⟩ : String) := rfl
  match r2 with
  | [] =>
    refine ⟨'0', '0', ?_, by decide, by decide⟩
    have : ("00", ([] : List Char)) = (ss, r3) := by
      have h2 : some (("00" : String), ([] : List Char)) = some (ss, r3) := h
      exact Option.some.inj h2
    rw [← (Prod.mk.injEq _ _ _ _).mp this |>.1, h00]
  | c :: r =>
    by_cases hc : c = ':'
    · subst hc
      simp only [seconds12h] at h
      rw [if_pos trivial] at h
      split at h
      · rename_i s1 s2 r4
        split at h
        · rename_i hdig
          have := Option.some.inj h
          have h1 := (Prod.mk.injEq _ _ _ _).mp this
          refine ⟨s1, s2, h1.1.symm, ?_, ?_⟩
          · exact (Bool.and_eq_true _ _ |>.mp hdig).1
          · exact (Bool.and_eq_true _ _ |>.mp hdig).2
        · exact absurd h (by simp)
      · exact absurd h (by simp)
    · simp only [seconds12h] at h
      rw [if_neg hc] at h
      have := Option.some.inj h
      have h1 := (Prod.mk.injEq _ _ _ _).mp this
      refine ⟨'0', '0', ?_, by decide, by decide⟩
      rw [← h1.1, h00]

theorem match12h_inv {s : String} {h : Nat} {mm ss : String} {p : Option Bool}
    (hm : match12h s = some (h, mm, ss, p)) :
    (∃ m1 m2, mm = (⟨[m1, m2]⟩ : String) ∧ m1.isDigit = true ∧ m2.isDigit = true) ∧
    (∃ s1 s2, ss = (⟨[s1, s2]⟩ : String) ∧ s1.isDigit = true ∧ s2.isDigit = true) ∧
    h ≤ 99 := by
  simp only [match12h] at hm
  split at hm
  · exact absurd hm (by simp)
  · rename_i hguard
    have hlen : (spanDigits s.data).1.length ≤ 2 := by
      simp only [Bool.or_eq_true, decide_eq_true_eq, not_or] at hguard
      omega
    have hbound : digitsToNat (spanDigits s.data).1 ≤ 99 :=
      digitsToNat_le99 _ (spanDigits_digits s.data) hlen
    split at hm
    · rename_i m1 m2 r2
      split at hm
      · rename_i hdig
        split at hm
        · exact absurd hm (by simp)
        · rename_i ss2 r3 hsec
          have hssinv := seconds12h_inv hsec
          split at hm
          · simp only [Option.some.injEq, Prod.mk.injEq] at hm
            obtain ⟨hA, hB, hC, hD⟩ := hm
            refine ⟨⟨_, _, hB.symm, (Bool.and_eq_true _ _ |>.mp hdig).1,
              (Bool.and_eq_true _ _ |>.mp hdig).2⟩, ?_, ?_⟩
            · rw [← hC]
              exact hssinv
            · rw [← hA]
              exact hbound
          · rcases hamp : matchAmPm12 (spanJsSpaces _).2 with _ | pm
            · rw [hamp] at hm
              exact absurd hm (by simp)
            · rw [hamp] at hm
              simp only [Option.some.injEq, Prod.mk.injEq] at hm
              obtain ⟨hA, hB, hC, hD⟩ := hm
              refine ⟨⟨_, _, hB.symm, (Bool.and_eq_true _ _ |>.mp hdig).1,
                (Bool.and_eq_true _ _ |>.mp hdig).2⟩, ?_, ?_⟩
              · rw [← hC]
                exact hssinv
              · rw [← hA]
                exact hbound
      · exact absurd hm (by simp)
    · exact absurd hm (by simp)

/-- A nonempty string already in `HH:MM[:SS]` shape is a fixpoint of
`normalizeTime`. -/
theorem normalizeTime_eq_self_of_isHHMM {s : String} (h0 : s ≠ "")
    (h1 : isHHMM s = true) : normalizeTime s = s := by
  unfold normalizeTime
  rw [if_neg h0, if_pos h1]

/-- A nonempty string matching neither `normalizeTime` regex is a
fixpoint of `normalizeTime`. -/
theorem normalizeTime_eq_self_of_unrecognized {s : String} (h0 : s ≠ "")
    (h1 : isHHMM s = false) (h2 : match12h s = none) : normalizeTime s = s := by
  unfold normalizeTime
  rw [if_neg h0, if_neg (by rw [h1]; exact Bool.false_ne_true), h2]

/-- `normalizeTime` is idempotent: its 12-hour branch always emits either
a 2-digit-hour `HH:MM:SS` (accepted by the first regex on a second pass)
or a 3-digit-hour string rejected by both regexes. -/
theorem normalizeTime_idem (s : String) :
    normalizeTime (normalizeTime s) = normalizeTime s := by
  by_cases h0 : s = ""
  · subst h0; rfl
  by_cases h1 : isHHMM s = true
  · have he : normalizeTime s = s := normalizeTime_eq_self_of_isHHMM h0 h1
    rw [he]; exact he
  cases hm : match12h s with
  | none =>
    have h1f : isHHMM s = false := by
      cases hB : isHHMM s with
      | false => rfl
      | true => exact absurd hB h1
    have he : normalizeTime s = s := normalizeTime_eq_self_of_unrecognized h0 h1f hm
    rw [he]; exact he
  | some v =>
    obtain ⟨hour, mm, ss, period⟩ := v
    obtain ⟨⟨m1, m2, hmmE, hm1, hm2⟩, ⟨s1, s2, hssE, hss1, hss2⟩, hhle⟩ := match12h_inv hm
    have hval : ∃ h', h' ≤ 111 ∧
        normalizeTime s = padStart2 (toString h') ++ ":" ++ mm ++ ":" ++ ss := by
      refine ⟨if period = some true && hour ≠ 12 then hour + 12
        else if period = some false && hour = 12 then 0 else hour, ?_, ?_⟩
      · split_ifs <;> omega
      · simp only [normalizeTime]
        rw [if_neg h0, if_neg h1, hm]
    obtain ⟨h', hle, hval⟩ := hval
    have hpf := padFact h' (by omega)
    have hdig : ∀ c ∈ (padStart2 (toString h')).data, c.isDigit = true := by
      intro c hc
      have hall := hpf.1
      rw [List.all_eq_true] at hall
      exact hall c hc
    have hodata : (padStart2 (toString h') ++ ":" ++ mm ++ ":" ++ ss).data =
        (padStart2 (toString h')).data ++ ':' :: m1 :: m2 :: ':' :: s1 :: s2 :: [] := by
      rw [hmmE, hssE]
      simp [String.data_append]
    rcases hpf.2 with ⟨hlt100, hlen2⟩ | ⟨hge100, hlen3⟩
    · have hiso : isHHMM (padStart2 (toString h') ++ ":" ++ mm ++ ":" ++ ss) = true := by
        refine isHHMM_true_of_data hodata ?_ ?_ hdig hm1 hm2
          (Or.inr ⟨s1, s2, rfl, hss1, hss2⟩)
        · intro hnil
          rw [hnil] at hlen2
          exact absurd hlen2 (by decide)
        · omega
      have hone : (padStart2 (toString h') ++ ":" ++ mm ++ ":" ++ ss) ≠ "" :=
        ne_empty_of_data_ne_nil (by rw [hodata]; simp)
      have heo := normalizeTime_eq_self_of_isHHMM hone hiso
      rw [hval]; exact heo
    · have hiso : isHHMM (padStart2 (toString h') ++ ":" ++ mm ++ ":" ++ ss) = false := by
        refine isHHMM_false_of_long hodata hdig (by omega) ?_
        intro c r he
        cases he
        decide
      have hnone : match12h (padStart2 (toString h') ++ ":" ++ mm ++ ":" ++ ss) = none := by
        refine match12h_none_of_long hodata hdig (by omega) ?_
        intro c r he
        cases he
        decide
      have hone : (padStart2 (toString h') ++ ":" ++ mm ++ ":" ++ ss) ≠ "" :=
        ne_empty_of_data_ne_nil (by rw [hodata]; simp)
      have heo := normalizeTime_eq_self_of_unrecognized hone hiso hnone
      rw [hval]; exact heo

/-- A list of four elements from its length. -/
theorem length_eq_four_list {l : List Char} (h : l.length = 4) :
    ∃ a b c d, l = [a, b, c, d] := by
  rcases l with _ | ⟨a, l⟩
  · simp at h
  rcases l with _ | ⟨b, l⟩
  · simp at h
  rcases l with _ | ⟨c, l⟩
  · simp at h
  rcases l with _ | ⟨d, l⟩
  · simp at h
  rcases l with _ | ⟨e, l⟩
  · exact ⟨a, b, c, d, rfl⟩
  · simp at h

/-- Inversion for `matchMDY`: each captured group is a digit run, the
month and day of one or two digits and the year of two to four. -/
theorem matchMDY_inv {s month day year : String}
    (hm : matchMDY s = some (month, day, year)) :
    (∀ c ∈ month.data, c.isDigit = true) ∧ 1 ≤ month.data.length ∧ month.data.length ≤ 2 ∧
    (∀ c ∈ day.data, c.isDigit = true) ∧ 1 ≤ day.data.length ∧ day.data.length ≤ 2 ∧
    (∀ c ∈ year.data, c.isDigit = true) ∧ 2 ≤ year.data.length ∧ year.data.length ≤ 4 := by
  simp only [matchMDY] at hm
  split at hm
  · exact absurd hm (by simp)
  · rename_i hg1
    split at hm
    · rename_i s1 r1 heq1
      split at hm
      · rename_i hsep1
        split at hm
        · exact absurd hm (by simp)
        · rename_i hg2
          split at hm
          · rename_i s2 r2 heq2
            split at hm
            · rename_i hsep2
              split at hm
              · rename_i hg3
                simp only [Option.some.injEq, Prod.mk.injEq] at hm
                obtain ⟨hA, hB, hC⟩ := hm
                subst hA
                subst hB
                subst hC
                have hd1 := spanDigits_digits s.data
                have hd2 := spanDigits_digits r1
                have hd3 := spanDigits_digits r2
                simp only [Bool.or_eq_true, decide_eq_true_eq, not_or] at hg1 hg2
                simp only [Bool.and_eq_true, decide_eq_true_eq] at hg3
                refine ⟨fun c hc => hd1 c hc, ?_, ?_, fun c hc => hd2 c hc, ?_, ?_,
                  fun c hc => hd3 c hc, ?_, ?_⟩
                · show 1 ≤ (spanDigits s.data).1.length
                  omega
                · show (spanDigits s.data).1.length ≤ 2
                  omega
                · show 1 ≤ (spanDigits r1).1.length
                  omega
                · show (spanDigits r1).1.length ≤ 2
                  omega
                · show 2 ≤ (spanDigits r2).1.length
                  exact hg3.1.1
                · show (spanDigits r2).1.length ≤ 4
                  exact hg3.1.2
              · exact absurd hm (by simp)
            · exact absurd hm (by simp)
          · exact absurd hm (by simp)
      · exact absurd hm (by simp)
    · exact absurd hm (by simp)

/-- `padStart(2, "0")` on a one- or two-digit string yields exactly two
digits. -/
theorem padStart2_two {m : String} (hd : ∀ c ∈ m.data, c.isDigit = true)
    (h1 : 1 ≤ m.data.length) (h2 : m.data.length ≤ 2) :
    ∃ a b, (padStart2 m).data = [a, b] ∧ a.isDigit = true ∧ b.isDigit = true := by
  cases hmd : m.data with
  | nil =>
    rw [hmd] at h1
    exact absurd h1 (by simp)
  | cons a t =>
    cases hmt : t with
    | nil =>
      refine ⟨'0', a, ?_, by decide, hd a (by rw [hmd]; exact List.mem_cons_self a t)⟩
      have hl1 : m.length = 1 := by
        show m.data.length = 1
        rw [hmd, hmt]
        rfl
      unfold padStart2
      rw [if_neg (by omega)]
      show List.replicate (2 - m.length) '0' ++ m.data = ['0', a]
      rw [hl1, hmd, hmt]
      rfl
    | cons b t2 =>
      have ht2 : t2 = [] := by
        have hlen : t2.length = 0 := by
          rw [hmd, hmt] at h2
          rw [List.length_cons, List.length_cons] at h2
          omega
        exact List.length_eq_zero.mp hlen
      subst ht2
      refine ⟨a, b, ?_, hd a (by rw [hmd]; simp), hd b (by rw [hmd, hmt]; simp)⟩
      have hl2 : m.length = 2 := by
        show m.data.length = 2
        rw [hmd, hmt]
        rfl
      unfold padStart2
      rw [if_pos (by omega)]
      rw [hmd, hmt]

/-- `matchMDY` rejects any string starting with three or more digits. -/
theorem matchMDY_none_of_long {s : String} {hs rest : List Char}
    (hdata : s.data = hs ++ rest) (h3 : ∀ c ∈ hs, c.isDigit = true)
    (hlen : 3 ≤ hs.length)
    (hrest : ∀ c r, rest = c :: r → c.isDigit = false) :
    matchMDY s = none := by
  unfold matchMDY
  rw [hdata, spanDigits_append hs rest h3 hrest]
  have hg : ((hs.length = 0 || hs.length > 2) = true) := by
    simp only [Bool.or_eq_true, decide_eq_true_eq]
    omega
  rw [if_pos hg]

/-- The ISO-date regex rejects any string that is not ten characters
long. -/
theorem isIsoDate_false_of_len {s : String} (h : s.data.length ≠ 10) :
    isIsoDate s = false := by
  unfold isIsoDate
  split
  · rename_i a b c d e f g h2 heq
    exact absurd (by rw [heq]; rfl : s.data.length = 10) h
  · rfl

/-- The ISO-date regex accepts every `DDDD-DD-DD` digit shape. -/
theorem isIsoDate_true_of_shape {s : String} {y1 y2 y3 y4 a b c d : Char}
    (hdata : s.data = [y1, y2, y3, y4, '-', a, b, '-', c, d])
    (hy : ∀ x ∈ [y1, y2, y3, y4, a, b, c, d], x.isDigit = true) :
    isIsoDate s = true := by
  unfold isIsoDate
  rw [hdata]
  show (y1.isDigit && y2.isDigit && y3.isDigit && y4.isDigit &&
    a.isDigit && b.isDigit && c.isDigit && d.isDigit) = true
  simp [hy y1 (by simp), hy y2 (by simp), hy y3 (by simp), hy y4 (by simp),
    hy a (by simp), hy b (by simp), hy c (by simp), hy d (by simp)]

/-- A nonempty ISO-shaped string is a fixpoint of `normalizeDate`. -/
theorem normalizeDate_eq_self_of_iso {s : String} (h0 : s ≠ "")
    (h1 : isIsoDate s = true) : normalizeDate s = s := by
  unfold normalizeDate
  rw [if_neg h0, if_pos h1]

/-- A nonempty string matching neither `normalizeDate` regex is a
fixpoint of `normalizeDate`. -/
theorem normalizeDate_eq_self_of_unrecognized {s : String} (h0 : s ≠ "")
    (h1 : isIsoDate s = false) (h2 : matchMDY s = none) : normalizeDate s = s := by
  unfold normalizeDate
  rw [if_neg h0, if_neg (by rw [h1]; exact Bool.false_ne_true), h2]

/-- Any all-digit `DDDD-DD-DD` string is a fixpoint of `normalizeDate`
(its first regex accepts it). -/
theorem normalizeDate_fix_of_ten {o : String} {y1 y2 y3 y4 a b c d : Char}
    (hdata : o.data = [y1, y2, y3, y4, '-', a, b, '-', c, d])
    (hy : ∀ x ∈ [y1, y2, y3, y4, a, b, c, d], x.isDigit = true) :
    normalizeDate o = o :=
  normalizeDate_eq_self_of_iso (ne_empty_of_data_ne_nil (by rw [hdata]; simp))
    (isIsoDate_true_of_shape hdata hy)

/-- Any all-digit `DDD-DD-DD` string (three-digit year) is a fixpoint of
`normalizeDate`: too short for the ISO regex, too many leading digits for
the `M/D/Y` regex. -/
theorem normalizeDate_fix_of_nine {o : String} {y1 y2 y3 a b c d : Char}
    (hdata : o.data = [y1, y2, y3, '-', a, b, '-', c, d])
    (hy : ∀ x ∈ [y1, y2, y3], x.isDigit = true) :
    normalizeDate o = o := by
  have h0 : o ≠ "" := ne_empty_of_data_ne_nil (by rw [hdata]; simp)
  have hI : isIsoDate o = false := isIsoDate_false_of_len (by rw [hdata]; simp)
  have hN : matchMDY o = none := by
    have hdata2 : o.data = [y1, y2, y3] ++ ('-' :: a :: b :: '-' :: c :: d :: []) := hdata
    refine matchMDY_none_of_long hdata2 hy (by simp) ?_
    intro c2 r2 he
    cases he
    decide
  exact normalizeDate_eq_self_of_unrecognized h0 hI hN

/-- `normalizeDate` is idempotent: its `M/D/Y` branch emits either a
four-digit-year ISO string (accepted by the first regex on a second pass)
or a three-digit-year string rejected by both regexes. -/
theorem normalizeDate_idem (s : String) :
    normalizeDate (normalizeDate s) = normalizeDate s := by
  by_cases h0 : s = ""
  · subst h0; rfl
  by_cases h1 : isIsoDate s = true
  · have he : normalizeDate s = s := normalizeDate_eq_self_of_iso h0 h1
    rw [he]; exact he
  cases hm : matchMDY s with
  | none =>
    have h1f : isIsoDate s = false := by
      cases hB : isIsoDate s with
      | false => rfl
      | true => exact absurd hB h1
    have he : normalizeDate s = s := normalizeDate_eq_self_of_unrecognized h0 h1f hm
    rw [he]; exact he
  | some tup =>
    obtain ⟨month, day, year⟩ := tup
    obtain ⟨hmd, hm1, hm2, hdd, hd1, hd2, hyd, hy2, hy4⟩ := matchMDY_inv hm
    obtain ⟨a, b, hab, hda, hdb⟩ := padStart2_two hmd hm1 hm2
    obtain ⟨c, d, hcd, hdc, hdd2⟩ := padStart2_two hdd hd1 hd2
    have edash : ("-" : String).data = ['-'] := rfl
    have hval : normalizeDate s =
        (if year.length = 2 then
          (if digitsToNat year.data < 50 then "20" ++ year else "19" ++ year)
         else year) ++ "-" ++ padStart2 month ++ "-" ++ padStart2 day := by
      simp only [normalizeDate]
      rw [if_neg h0, if_neg h1, hm]
    by_cases hyl : year.length = 2
    · obtain ⟨yu, yv, huv⟩ := List.length_eq_two.mp (show year.data.length = 2 from hyl)
      rw [if_pos hyl] at hval
      by_cases hy50 : digitsToNat year.data < 50
      · rw [if_pos hy50] at hval
        have hdata : (("20" ++ year) ++ "-" ++ padStart2 month ++ "-" ++ padStart2 day).data
            = ['2', '0', yu, yv, '-', a, b, '-', c, d] := by
          have e20 : ("20" : String).data = ['2', '0'] := rfl
          simp [String.data_append, e20, edash, huv, hab, hcd]
        rw [hval]
        refine normalizeDate_fix_of_ten hdata ?_
        intro x hx
        simp only [List.mem_cons, List.not_mem_nil, or_false] at hx
        rcases hx with rfl | rfl | rfl | rfl | rfl | rfl | rfl | rfl <;>
          first
            | decide
            | exact hda
            | exact hdb
            | exact hdc
            | exact hdd2
            | exact hyd _ (by rw [huv]; simp)
      · rw [if_neg hy50] at hval
        have hdata : (("19" ++ year) ++ "-" ++ padStart2 month ++ "-" ++ padStart2 day).data
            = ['1', '9', yu, yv, '-', a, b, '-', c, d] := by
          have e19 : ("19" : String).data = ['1', '9'] := rfl
          simp [String.data_append, e19, edash, huv, hab, hcd]
        rw [hval]
        refine normalizeDate_fix_of_ten hdata ?_
        intro x hx
        simp only [List.mem_cons, List.not_mem_nil, or_false] at hx
        rcases hx with rfl | rfl | rfl | rfl | rfl | rfl | rfl | rfl <;>
          first
            | decide
            | exact hda
            | exact hdb
            | exact hdc
            | exact hdd2
            | exact hyd _ (by rw [huv]; simp)
    · rw [if_neg hyl] at hval
      have hyl2 : year.data.length ≠ 2 := hyl
      by_cases hy3 : year.data.length = 3
      · obtain ⟨yu, yv, yw, huvw⟩ := List.length_eq_three.mp hy3
        have hdata : (year ++ "-" ++ padStart2 month ++ "-" ++ padStart2 day).data
            = [yu, yv, yw, '-', a, b, '-', c, d] := by
          simp [String.data_append, edash, huvw, hab, hcd]
        rw [hval]
        refine normalizeDate_fix_of_nine hdata ?_
        intro x hx
        simp only [List.mem_cons, List.not_mem_nil, or_false] at hx
        rcases hx with rfl | rfl | rfl <;>
          exact hyd _ (by rw [huvw]; simp)
      · have hy4e : year.data.length = 4 := by omega
        obtain ⟨yu, yv, yw, yx, huvwx⟩ := length_eq_four_list hy4e
        have hdata : (year ++ "-" ++ padStart2 month ++ "-" ++ padStart2 day).data
            = [yu, yv, yw, yx, '-', a, b, '-', c, d] := by
          simp [String.data_append, edash, huvwx, hab, hcd]
        rw [hval]
        refine normalizeDate_fix_of_ten hdata ?_
        intro x hx
        simp only [List.mem_cons, List.not_mem_nil, or_false] at hx
        rcases hx with rfl | rfl | rfl | rfl | rfl | rfl | rfl | rfl <;>
          first
            | exact hda
            | exact hdb
            | exact hdc
            | exact hdd2
            | exact hyd _ (by rw [huvwx]; simp)

/-- `spanDigits` splits its input: prefix and suffix rebuild the list. -/
theorem spanDigits_decomp : ∀ l : List Char, (spanDigits l).1 ++ (spanDigits l).2 = l := by
  intro l
  induction l with
  | nil => rfl
  | cons a t ih =>
    by_cases ha : a.isDigit
    · rw [show spanDigits (a :: t) = (a :: (spanDigits t).1, (spanDigits t).2) by
        simp [spanDigits, ha]]
      show a :: ((spanDigits t).1 ++ (spanDigits t).2) = a :: t
      rw [ih]
    · rw [show spanDigits (a :: t) = ([], a :: t) by simp [spanDigits, ha]]
      rfl

/-- Inversion for the `HH:MM[:SS]` regex: an accepted string has a colon
after its leading digits, two minute characters, and either nothing or
exactly `:SS` after them. -/
theorem isHHMM_inv {s : String} (h : isHHMM s = true) :
    ∃ m1 m2 r2, (spanDigits s.data).2 = ':' :: m1 :: m2 :: r2 ∧
      (r2 = [] ∨ ∃ x y, r2 = [':', x, y]) := by
  simp only [isHHMM] at h
  rw [Bool.and_eq_true] at h
  obtain ⟨hlen, hmatch⟩ := h
  split at hmatch
  · rename_i m1 m2 r2 heq
    rw [Bool.and_eq_true] at hmatch
    obtain ⟨hm12, hinner⟩ := hmatch
    refine ⟨m1, m2, r2, heq, ?_⟩
    split at hinner
    · exact Or.inl rfl
    · rename_i x y
      exact Or.inr ⟨x, y, rfl⟩
    · exact absurd hinner (by simp)
  · exact absurd hmatch (by simp)

/-- A string the 12-hour regex accepts with an am/pm marker is rejected
by the `HH:MM[:SS]` regex: the marker leaves a tail after the minutes
and seconds. -/
theorem isHHMM_false_of_ampm {s : String} {hr : Nat} {mm ss : String} {pm : Bool}
    (hm : match12h s = some (hr, mm, ss, some pm)) : isHHMM s = false := by
  cases hB : isHHMM s with
  | false => rfl
  | true =>
    exfalso
    obtain ⟨m1a, m2a, r2a, heqa, hcasesa⟩ := isHHMM_inv hB
    simp only [match12h] at hm
    split at hm
    · exact absurd hm (by simp)
    · rename_i hg
      split at hm
      · rename_i m1 m2 r2 heq
        split at hm
        · rename_i hdig
          split at hm
          · exact absurd hm (by simp)
          · rename_i ss2 r3 hsec
            split at hm
            · simp at hm
            · rename_i hap
              split at hm
              · rename_i pm2 hamp
                have hr3 : r3 ≠ [] := by
                  intro h3
                  rw [h3] at hap
                  exact hap rfl
                rw [heq] at heqa
                simp only [List.cons.injEq, true_and] at heqa
                obtain ⟨hma, hmb, hr2⟩ := heqa
                subst hr2
                rcases hcasesa with h2 | ⟨x, y, h2⟩
                · rw [h2] at hsec
                  have h2i := Option.some.inj hsec
                  exact hr3 ((Prod.mk.injEq _ _ _ _).mp h2i).2.symm
                · rw [h2] at hsec
                  have hsec2 : (if (x.isDigit && y.isDigit) = true then
                      some ((⟨[x, y]⟩ : String), ([] : List Char)) else none) =
                      some (ss2, r3) := hsec
                  by_cases hxy : (x.isDigit && y.isDigit) = true
                  · rw [if_pos hxy] at hsec2
                    have h2i := Option.some.inj hsec2
                    exact hr3 ((Prod.mk.injEq _ _ _ _).mp h2i).2.symm
                  · rw [if_neg hxy] at hsec2
                    cases hsec2
              · exact absurd hm (by simp)
        · exact absurd hm (by simp)
      · exact absurd hm (by simp)

/-- On a 12-hour match with an am/pm marker, `normalizeTime` emits the
24-hour conversion: `12 am` becomes hour `0`, `12 pm` stays `12`, any
other `pm` hour gains `12`, and `am` hours pass through. -/
theorem normalizeTime_ampm {s : String} {hour : Nat} {mm ss : String} {pm : Bool}
    (hm : match12h s = some (hour, mm, ss, some pm)) :
    normalizeTime s = padStart2 (toString (if pm then (if hour = 12 then 12 else hour + 12)
      else (if hour = 12 then 0 else hour))) ++ ":" ++ mm ++ ":" ++ ss := by
  have hne : s ≠ "" := by
    intro he
    rw [he] at hm
    rw [show match12h "" = none from rfl] at hm
    cases hm
  have hHH : isHHMM s = false := isHHMM_false_of_ampm hm
  have h1 : ¬ isHHMM s = true := by
    rw [hHH]
    exact Bool.false_ne_true
  have hval : normalizeTime s = padStart2 (toString
      (if some pm = some true && hour ≠ 12 then hour + 12
       else if some pm = some false && hour = 12 then 0 else hour)) ++
      ":" ++ mm ++ ":" ++ ss := by
    simp only [normalizeTime]
    rw [if_neg hne, if_neg h1, hm]
  rw [hval]
  have harg : (if some pm = some true && hour ≠ 12 then hour + 12
       else if some pm = some false && hour = 12 then 0 else hour) =
      (if pm then (if hour = 12 then 12 else hour + 12)
       else (if hour = 12 then 0 else hour)) := by
    cases pm with
    | true =>
      by_cases h12 : hour = 12
      · subst h12
        rfl
      · simp [h12]
    | false =>
      by_cases h12 : hour = 12
      · subst h12
        rfl
      · simp [h12]
  rw [harg]

theorem csvScan_false_nil (d : Char) (cur : List Char) (fields : List String)
    (recs : List (List String)) :
    csvScan d false [] cur fields recs = recs ++ [fields ++ [⟨cur⟩]] := by
  simp [csvScan]

theorem csvScan_quote_open {d : Char} (hd : d ≠ '"') (rest : List Char)
    (cur : List Char) (fields : List String) (recs : List (List String)) :
    csvScan d false ('"' :: rest) cur fields recs =
      csvScan d true rest cur fields recs := by
  rw [csvScan.eq_def]
  simp [Ne.symm hd]

theorem csvScan_false_other {d c : Char} (h1 : c ≠ d) (h2 : c ≠ '\n') (h3 : c ≠ '"')
    (rest cur : List Char) (fields : List String) (recs : List (List String)) :
    csvScan d false (c :: rest) cur fields recs =
      csvScan d false rest (cur ++ [c]) fields recs := by
  rw [csvScan.eq_def]
  simp [h1, h2, h3]

theorem csvScan_delim (d : Char) (rest : List Char) (cur : List Char)
    (fields : List String) (recs : List (List String)) :
    csvScan d false (d :: rest) cur fields recs =
      csvScan d false rest [] (fields ++ [⟨cur⟩]) recs := by
  rw [csvScan.eq_def]
  simp

theorem csvScan_newline {d : Char} (hn : d ≠ '\n') (rest : List Char)
    (cur : List Char) (fields : List String) (recs : List (List String)) :
    csvScan d false ('\n' :: rest) cur fields recs =
      csvScan d false rest [] [] (recs ++ [fields ++ [⟨cur⟩]]) := by
  rw [csvScan.eq_def]
  simp [Ne.symm hn]

theorem csvScan_true_quote_end (d : Char) (cur : List Char) (fields : List String)
    (recs : List (List String)) :
    csvScan d true ['"'] cur fields recs = recs ++ [fields ++ [⟨cur⟩]] := by
  rw [csvScan.eq_def]
  simp

theorem csvScan_true_quote_quote (d : Char) (rest : List Char) (cur : List Char)
    (fields : List String) (recs : List (List String)) :
    csvScan d true ('"' :: '"' :: rest) cur fields recs =
      csvScan d true rest (cur ++ ['"']) fields recs := by
  rw [csvScan.eq_def]
  simp

theorem csvScan_true_quote_other {c2 : Char} (h : c2 ≠ '"') (d : Char)
    (rest2 : List Char) (cur : List Char) (fields : List String)
    (recs : List (List String)) :
    csvScan d true ('"' :: c2 :: rest2) cur fields recs =
      csvScan d false (c2 :: rest2) cur fields recs := by
  rw [csvScan.eq_def]
  simp [h]

theorem csvScan_true_other {c : Char} (h : c ≠ '"') (d : Char) (rest : List Char)
    (cur : List Char) (fields : List String) (recs : List (List String)) :
    csvScan d true (c :: rest) cur fields recs =
      csvScan d true rest (cur ++ [c]) fields recs := by
  rw [csvScan.eq_def]
  simp [h]

theorem csvScan_esc (d : Char) (v : List Char) :
    ∀ (rest cur : List Char) (fields : List String) (recs : List (List String)),
      (∀ c2 r2, rest = c2 :: r2 → c2 ≠ '"') →
      csvScan d true (escChars v ++ '"' :: rest) cur fields recs =
        csvScan d false rest (cur ++ v) fields recs := by
  induction v with
  | nil =>
    intro rest cur fields recs hrest
    show csvScan d true ('"' :: rest) cur fields recs = _
    rw [List.append_nil]
    cases rest with
    | nil =>
      rw [csvScan_true_quote_end, csvScan_false_nil]
    | cons c2 r2 =>
      exact csvScan_true_quote_other (hrest c2 r2 rfl) d r2 cur fields recs
  | cons c v2 ih =>
    intro rest cur fields recs hrest
    by_cases hc : c = '"'
    · subst hc
      rw [show escChars ('"' :: v2) = '"' :: '"' :: escChars v2 by simp [escChars]]
      show csvScan d true ('"' :: '"' :: (escChars v2 ++ '"' :: rest)) cur fields recs = _
      rw [csvScan_true_quote_quote, ih rest (cur ++ ['"']) fields recs hrest,
        List.append_assoc]
      rfl
    · rw [show escChars (c :: v2) = c :: escChars v2 by simp [escChars, hc]]
      show csvScan d true (c :: (escChars v2 ++ '"' :: rest)) cur fields recs = _
      rw [csvScan_true_other hc, ih rest (cur ++ [c]) fields recs hrest,
        List.append_assoc]
      rfl

theorem csvScan_line_nl {d : Char} (hd : d ≠ '"') (hn : d ≠ '\n') :
    ∀ (vs : List String), vs ≠ [] →
      ∀ (rest : List Char) (fields : List String) (recs : List (List String)),
      csvScan d false (lineOf d vs ++ '\n' :: rest) [] fields recs =
        csvScan d false rest [] [] (recs ++ [fields ++ vs]) := by
  intro vs
  induction vs with
  | nil => intro h; exact absurd rfl h
  | cons v t ih =>
    intro _ rest fields recs
    cases t with
    | nil =>
      show csvScan d false (escapedField v ++ '\n' :: rest) [] fields recs = _
      rw [show escapedField v ++ '\n' :: rest =
          '"' :: (escChars v.data ++ '"' :: '\n' :: rest) by simp [escapedField]]
      rw [csvScan_quote_open hd]
      rw [csvScan_esc d v.data ('\n' :: rest) [] fields recs
        (fun c2 r2 he => by cases he; decide)]
      rw [List.nil_append, csvScan_newline hn, mk_data]
    | cons w t2 =>
      show csvScan d false ((escapedField v ++ d :: lineOf d (w :: t2)) ++ '\n' :: rest)
        [] fields recs = _
      rw [show (escapedField v ++ d :: lineOf d (w :: t2)) ++ '\n' :: rest =
          '"' :: (escChars v.data ++ '"' :: d :: (lineOf d (w :: t2) ++ '\n' :: rest)) by
        simp [escapedField]]
      rw [csvScan_quote_open hd]
      rw [csvScan_esc d v.data _ [] fields recs
        (fun c2 r2 he => by cases he; exact hd)]
      rw [List.nil_append, csvScan_delim, mk_data]
      rw [ih (by simp) rest (fields ++ [v]) recs, List.append_assoc]
      rfl

theorem csvScan_line_end {d : Char} (hd : d ≠ '"') :
    ∀ (vs : List String), vs ≠ [] →
      ∀ (fields : List String) (recs : List (List String)),
      csvScan d false (lineOf d vs) [] fields recs = recs ++ [fields ++ vs] := by
  intro vs
  induction vs with
  | nil => intro h; exact absurd rfl h
  | cons v t ih =>
    intro _ fields recs
    cases t with
    | nil =>
      show csvScan d false (escapedField v) [] fields recs = _
      rw [show escapedField v = '"' :: (escChars v.data ++ '"' :: []) by simp [escapedField]]
      rw [csvScan_quote_open hd]
      rw [csvScan_esc d v.data [] [] fields recs (fun c2 r2 he => by cases he)]
      rw [List.nil_append, csvScan_false_nil, mk_data]
    | cons w t2 =>
      show csvScan d false (escapedField v ++ d :: lineOf d (w :: t2)) [] fields recs = _
      rw [show escapedField v ++ d :: lineOf d (w :: t2) =
          '"' :: (escChars v.data ++ '"' :: d :: lineOf d (w :: t2)) by simp [escapedField]]
      rw [csvScan_quote_open hd]
      rw [csvScan_esc d v.data _ [] fields recs (fun c2 r2 he => by cases he; exact hd)]
      rw [List.nil_append, csvScan_delim, mk_data]
      rw [ih (by simp) (fields ++ [v]) recs, List.append_assoc]
      rfl

theorem csvScan_lines {d : Char} (hd : d ≠ '"') (hn : d ≠ '\n') :
    ∀ (lns : List (List String)), (∀ vs ∈ lns, vs ≠ []) → lns ≠ [] →
      ∀ recs, csvScan d false (linesOf d lns) [] [] recs = recs ++ lns := by
  intro lns
  induction lns with
  | nil => intro _ h; exact absurd rfl h
  | cons vs t ih =>
    intro hne _ recs
    cases t with
    | nil =>
      show csvScan d false (lineOf d vs) [] [] recs = _
      rw [csvScan_line_end hd vs (hne vs (List.mem_cons_self vs [])) [] recs]
      rw [List.nil_append]
    | cons ws t2 =>
      show csvScan d false (lineOf d vs ++ '\n' :: linesOf d (ws :: t2)) [] [] recs = _
      rw [csvScan_line_nl hd hn vs (hne vs (List.mem_cons_self vs _)) _ [] recs,
        List.nil_append]
      rw [ih (fun x hx => hne x (List.mem_cons_of_mem vs hx)) (by simp) (recs ++ [vs])]
      rw [List.append_assoc]
      rfl

theorem joinWith_line_data (d : Char) :
    ∀ vs : List String, vs ≠ [] →
      (joinWith (⟨[d]⟩ : String) (vs.map escapeCsv)).data = lineOf d vs := by
  intro vs
  induction vs with
  | nil => intro h; exact absurd rfl h
  | cons v t ih =>
    intro _
    cases t with
    | nil =>
      show (escapeCsv v).data = escapedField v
      unfold escapeCsv escapedField
      rw [String.data_append, String.data_append]
      rfl
    | cons w t2 =>
      show (escapeCsv v ++ ⟨[d]⟩ ++ joinWith ⟨[d]⟩ ((w :: t2).map escapeCsv)).data =
        escapedField v ++ d :: lineOf d (w :: t2)
      rw [String.data_append, String.data_append, ih (by simp)]
      unfold escapeCsv escapedField
      rw [String.data_append, String.data_append]
      simp [List.append_assoc]

theorem joinWith_lines_data (d : Char) :
    ∀ lns : List (List String), (∀ vs ∈ lns, vs ≠ []) → lns ≠ [] →
      (joinWith "\n" (lns.map (fun vs => joinWith (⟨[d]⟩ : String) (vs.map escapeCsv)))).data =
        linesOf d lns := by
  intro lns
  induction lns with
  | nil => intro _ h; exact absurd rfl h
  | cons vs t ih =>
    intro hne _
    cases t with
    | nil =>
      show (joinWith (⟨[d]⟩ : String) (vs.map escapeCsv)).data = lineOf d vs
      exact joinWith_line_data d vs (hne vs (List.mem_cons_self vs []))
    | cons ws t2 =>
      show (joinWith (⟨[d]⟩ : String) (vs.map escapeCsv) ++ "\n" ++
        joinWith "\n" (((ws :: t2)).map (fun vs => joinWith ⟨[d]⟩ (vs.map escapeCsv)))).data =
        lineOf d vs ++ '\n' :: linesOf d (ws :: t2)
      rw [String.data_append, String.data_append,
        joinWith_line_data d vs (hne vs (List.mem_cons_self vs _)),
        ih (fun x hx => hne x (List.mem_cons_of_mem vs hx)) (by simp)]
      simp [List.append_assoc]

/-- Well-formedness of the insertion-ordered histograms built by `bump`:
distinct, non-empty keys. -/
def HistWF (hist : List (String × Nat)) : Prop :=
  (hist.map (fun p => p.1)).Nodup ∧ ∀ p ∈ hist, p.1 ≠ ""

theorem bump_histWF {hist : List (String × Nat)} {k : String}
    (w : HistWF hist) (hk : k ≠ "") : HistWF (bump hist k) := by
  unfold bump
  by_cases h : hist.any (fun p => p.1 = k) = true
  · rw [if_pos h]
    constructor
    · have hkeys : (hist.map (fun p => if p.1 = k then (p.1, p.2 + 1) else p)).map
          (fun p => p.1) = hist.map (fun p => p.1) := by
        rw [List.map_map]
        refine List.map_congr_left (fun p _ => ?_)
        by_cases hp : p.1 = k <;> simp [hp, Function.comp]
      rw [hkeys]; exact w.1
    · intro p hp
      rcases List.mem_map.mp hp with ⟨q, hq, rfl⟩
      by_cases hqk : q.1 = k
      · simpa [hqk] using hk
      · simpa [hqk] using w.2 q hq
  · rw [if_neg h]
    have h' : ∀ q ∈ hist, q.1 ≠ k := by
      intro q hq hqk
      exact h (List.any_eq_true.mpr ⟨q, hq, by simpa using hqk⟩)
    constructor
    · rw [List.map_append]
      simp only [List.map_cons, List.map_nil]
      rw [List.nodup_append]
      refine ⟨w.1, List.nodup_singleton k, ?_⟩
      intro a ha hb
      rcases List.mem_map.mp ha with ⟨q, hq, rfl⟩
      simp only [List.mem_singleton] at hb
      exact h' q hq hb
    · intro p hp
      rcases List.mem_append.mp hp with hp | hp
      · exact w.2 p hp
      · simp only [List.mem_singleton] at hp; subst hp; exact hk

theorem foldl_histWF (f : EnrichedRow → String) :
    ∀ (rows : List EnrichedRow) (h : List (String × Nat)), HistWF h →
      HistWF (rows.foldl (fun h r => if f r ≠ "" then bump h (f r) else h) h)
  | [], _, w => w
  | r :: rows, h, w => by
    simp only [List.foldl_cons]
    by_cases hr : f r = ""
    · rw [if_neg (not_not_intro hr)]
      exact foldl_histWF f rows h w
    · rw [if_pos hr]
      exact foldl_histWF f rows _ (bump_histWF w hr)

theorem histFold_wf (f : EnrichedRow → String) (rows : List EnrichedRow) :
    HistWF (histFold f rows) :=
  foldl_histWF f rows [] ⟨List.nodup_nil, by simp⟩

theorem histWF_tail {q : String × Nat} {t : List (String × Nat)}
    (w : HistWF (q :: t)) : HistWF t := by
  constructor
  · have h := w.1
    simp only [List.map_cons, List.nodup_cons] at h
    exact h.2
  · exact fun x hx => w.2 x (List.mem_cons_of_mem q hx)

theorem histWF_lookup {hist : List (String × Nat)} (w : HistWF hist) :
    ∀ p ∈ hist, hist.lookup p.1 = some p.2 := by
  induction hist with
  | nil => intro p hp; cases hp
  | cons q t ih =>
    intro p hp
    rcases List.mem_cons.mp hp with rfl | hp
    · simp [List.lookup]
    · have hq : q.1 ∉ t.map (fun p => p.1) := by
        have := w.1
        simp only [List.map_cons, List.nodup_cons] at this
        exact this.1
      have hne : (p.1 == q.1) = false := by
        simp only [beq_eq_false_iff_ne, ne_eq]
        intro hcontra
        exact hq (hcontra ▸ List.mem_map_of_mem (fun p => p.1) hp)
      simp only [List.lookup, hne]
      exact ih (histWF_tail w) p hp

theorem histWF_lookup_nil {hist : List (String × Nat)} (w : HistWF hist) :
    hist.lookup "" = none := by
  induction hist with
  | nil => rfl
  | cons q t ih =>
    have hq : q.1 ≠ "" := w.2 q (List.mem_cons_self q t)
    have hne : ("" == q.1) = false := by
      simp only [beq_eq_false_iff_ne, ne_eq]
      exact fun hcontra => hq hcontra.symm
    simp only [List.lookup, hne]
    exact ih (histWF_tail w)

theorem maxCount_concat (l : List (String × Nat)) (q : String × Nat) :
    maxCount (l ++ [q]) = max (maxCount l) q.2 := by
  simp [maxCount, List.foldl_append]

theorem lastArgmax_concat_ge {l : List (String × Nat)} {q : String × Nat}
    (h : maxCount l ≤ q.2) : lastArgmax (l ++ [q]) = q.1 := by
  unfold lastArgmax
  rw [maxCount_concat, max_eq_right h, List.filter_append, List.filter_singleton]
  have heq : decide (q.2 = q.2) = true := by simp
  rw [heq, cond_true, List.getLast?_concat]

theorem lastArgmax_concat_lt {l : List (String × Nat)} {q : String × Nat}
    (h : q.2 < maxCount l) : lastArgmax (l ++ [q]) = lastArgmax l := by
  unfold lastArgmax
  rw [maxCount_concat, max_eq_left h.le, List.filter_append, List.filter_singleton]
  have hne : decide (q.2 = maxCount l) = false := by
    simp only [decide_eq_false_iff_not]; omega
  rw [hne, cond_false, List.append_nil]

theorem maxCount_attained :
    ∀ {ps : List (String × Nat)}, ps ≠ [] → ∃ p ∈ ps, p.2 = maxCount ps := by
  intro ps
  induction ps using List.reverseRecOn with
  | nil => intro h; exact absurd rfl h
  | append_singleton l q ih =>
    intro _
    rw [maxCount_concat]
    by_cases h : maxCount l ≤ q.2
    · exact ⟨q, List.mem_append_right _ (List.mem_singleton_self q),
        (max_eq_right h).symm⟩
    · push_neg at h
      have hl : l ≠ [] := by
        intro hnil; subst hnil; simp [maxCount] at h
      rcases ih hl with ⟨p, hp, hpc⟩
      exact ⟨p, List.mem_append_left _ hp, by rw [hpc, max_eq_left h.le]⟩

theorem lastArgmax_spec {ps : List (String × Nat)} (h : ps ≠ []) :
    ∃ p, p ∈ ps ∧ p.2 = maxCount ps ∧ lastArgmax ps = p.1 := by
  rcases maxCount_attained h with ⟨p0, hp0, hp0c⟩
  have hf : ps.filter (fun p => p.2 = maxCount ps) ≠ [] := by
    intro hnil
    have hmem : p0 ∈ ps.filter (fun p => p.2 = maxCount ps) :=
      List.mem_filter.mpr ⟨hp0, by simpa using hp0c⟩
    rw [hnil] at hmem; cases hmem
  have hlast := List.getLast?_eq_getLast _ hf
  refine ⟨(ps.filter (fun p => p.2 = maxCount ps)).getLast hf, ?_, ?_, ?_⟩
  · exact (List.mem_filter.mp (List.getLast_mem hf)).1
  · simpa using (List.mem_filter.mp (List.getLast_mem hf)).2
  · unfold lastArgmax
    rw [hlast]

theorem argmax_fold (hist : List (String × Nat)) :
    ∀ ps : List (String × Nat), ps ≠ [] →
      (∀ p ∈ ps, hist.lookup p.1 = some p.2) → hist.lookup "" = none →
      (ps.map (fun p => p.1)).foldl
        (fun a b => if jsGtOpt (hist.lookup a) (hist.lookup b) then a else b) "" =
      lastArgmax ps := by
  intro ps
  induction ps using List.reverseRecOn with
  | nil => intro h; exact absurd rfl h
  | append_singleton l q ih =>
    intro _ hlk hnil
    rw [List.map_append, List.map_cons, List.map_nil, List.foldl_append, List.foldl_cons,
      List.foldl_nil]
    have hq : hist.lookup q.1 = some q.2 :=
      hlk q (List.mem_append_right _ (List.mem_singleton_self q))
    by_cases hl : l = []
    · subst hl
      simp only [List.map_nil, List.foldl_nil, hnil, hq, jsGtOpt]
      rw [if_neg (by simp)]
      exact (lastArgmax_concat_ge (by simp [maxCount])).symm
    · have ihres := ih hl (fun p hp => hlk p (List.mem_append_left _ hp)) hnil
      rw [ihres]
      rcases lastArgmax_spec hl with ⟨pa, hpa, hpac, hpaeq⟩
      have ha : hist.lookup (lastArgmax l) = some (maxCount l) := by
        rw [hpaeq, ← hpac]; exact hlk pa (List.mem_append_left _ hpa)
      by_cases hcmp : q.2 < maxCount l
      · rw [if_pos (by simp [ha, hq, jsGtOpt]; omega)]
        exact (lastArgmax_concat_lt hcmp).symm
      · push_neg at hcmp
        rw [if_neg (by simp [ha, hq, jsGtOpt]; omega)]
        exact (lastArgmax_concat_ge hcmp).symm

theorem jsArgmax_eq_lastArgmax {hist : List (String × Nat)} (w : HistWF hist) :
    jsArgmax hist = lastArgmax hist := by
  by_cases h : hist = []
  · subst h; rfl
  · exact argmax_fold hist hist h (histWF_lookup w) (histWF_lookup_nil w)
/-- A fixed enriched record used by the concrete counterexamples (its
derived fields are consistent with a message on the given weekday). -/
def mkDayRow (day : String) : EnrichedRow :=
  { date := "2023-07-07", time := "10:00:00", sender := "Alice",
    message := "hi", datetime := "2023-07-07T10:00:00.000Z",
    dayOfWeek := day, hour := "10:00", messageLength := 2,
    wordCount := 1, mediaCount := 0, mediaFiles := "" }

/-- A small session used by the download-endpoint theorems. -/
def exSession : Session :=
  { rows := [mkDayRow "Friday"], stats := calculateStatistics [mkDayRow "Friday"],
    baseName := "chat1", filesProcessed := 1, createdAt := 0 }

/-- Empty filter specification (no criteria present). -/
def noFilters : Filters := ⟨"", "", "", ""⟩

/-! ## Claims -/

/-- C5: parsing the three-line scenario input yields exactly two records:
`2023-07-07 / 22:00:20 / Alice / "Hello\n  – love you"` (the continuation
folded with its leading whitespace preserved) and
`2023-07-08 / 08:15:00 / Bob / "Hi"`. -/
theorem claim_C5_three_line_scenario :
    (parseWhatsAppTxt "[2023-07-07, 10:00:20 PM] Alice: Hello\n  – love you\n[2023-07-08, 08:15 AM] Bob: Hi").map
      (fun l => l.map (fun r => (r.date, r.time, r.sender, r.message))) =
    .ok [("2023-07-07", "22:00:20", "Alice", "Hello\n  – love you"),
         ("2023-07-08", "08:15:00", "Bob", "Hi")] := by
  rfl

/-- C1: contrary to the claim, enrichment of a parsed record can raise.
For the single malformed line `[2023-13-01, 10:00] Alice: Hi` the
canonical date `2023-13-01` and time `10:00` are both non-empty but do
not form a valid calendar value, so `new Date(...)` yields an Invalid
Date; the `datetime ? datetime.toISOString() : ""` in the returned
object literal lies outside the `try` block and throws a `RangeError`
instead of leaving the derived datetime empty. -/
theorem claim_C1_enrichment_throws :
    parseWhatsAppTxt "[2023-13-01, 10:00] Alice: Hi" = .error "Invalid time value" ∧
    (segmentLines "[2023-13-01, 10:00] Alice: Hi").map
      (fun r => (r.date, r.time, r.sender, r.message)) =
      [("2023-13-01", "10:00", "Alice", "Hi")] := by
  exact ⟨rfl, rfl⟩

/-- C2: contrary to the claim, a successful `excel`/`xlsx` export does
not invalidate the session: that branch returns the workbook before the
`downloads.delete(...)` statement is reached, so the store is unchanged
and a second identical request serves the export again instead of the
expired response.  (The `csv` branch, by contrast, does delete the
session, and a second request then matches the response for an unknown
identifier.) -/
theorem claim_C2_excel_export_not_one_time :
    (downloadHandler [("abc", exSession)] "abc" "xlsx" noFilters ["date"] ",").2 =
      [("abc", exSession)] ∧
    (downloadHandler
        (downloadHandler [("abc", exSession)] "abc" "xlsx" noFilters ["date"] ",").2
        "abc" "xlsx" noFilters ["date"] ",").1 ≠ DownloadResult.expiredPage ∧
    (downloadHandler [("abc", exSession)] "abc" "csv" noFilters ["date"] ",").2 = [] ∧
    (downloadHandler
        (downloadHandler [("abc", exSession)] "abc" "csv" noFilters ["date"] ",").2
        "abc" "csv" noFilters ["date"] ",").1 = DownloadResult.expiredPage ∧
    (downloadHandler [("abc", exSession)] "never-issued" "csv" noFilters ["date"] ",").1 =
      DownloadResult.expiredPage := by
  refine ⟨rfl, ?_, rfl, rfl, rfl⟩
  decide

/-- C4: every non-blank input line is resolved by the segmenter to
exactly one of: new record, continuation of the previous record, or
orphan record; and no text is discarded: joining the `message` fields
of the segmented records with single newlines reproduces, in order, the
per-line contributions of all non-blank lines (the stripped-prefix
message part for boundary lines, the normalized line itself for
continuation and orphan lines); orphan records are retained, so a
non-empty input yields a non-empty record list. -/
theorem claim_C4_segmentation_preserves_text (text : String) :
    joinNL ((segmentLines text).map Row.message) =
      joinNL ((nonBlankLines text).map lineContribution) ∧
    (nonBlankLines text ≠ [] → segmentLines text ≠ []) := by
  constructor
  · exact seg_foldl_join_nil (jsLines text)
  · intro hnb
    refine seg_foldl_ne_nil (jsLines text) [] (Or.inr ?_)
    rcases hne : nonBlankLines text with _ | ⟨x, xs⟩
    · exact absurd hne hnb
    · have hx : x ∈ nonBlankLines text := hne ▸ List.mem_cons_self x xs
      have hmem := List.mem_filter.mp hx
      exact ⟨x, hmem.1, by simpa using hmem.2⟩

/-- Witness for C4 on a concrete three-line input containing a boundary
line, a continuation and an orphan line. -/
theorem claim_C4_segmentation_preserves_text_witness :
    joinNL ((segmentLines "orphan\n[2023-07-07, 10:00 PM] Alice: Hi\n  cont").map
        Row.message) =
      joinNL ((nonBlankLines "orphan\n[2023-07-07, 10:00 PM] Alice: Hi\n  cont").map
        lineContribution) ∧
    segmentLines "orphan\n[2023-07-07, 10:00 PM] Alice: Hi\n  cont" ≠ [] :=
  ⟨(claim_C4_segmentation_preserves_text _).1,
   (claim_C4_segmentation_preserves_text _).2 (by decide)⟩

/-- C3 counterexample: on two records with tied weekday counts the
arg-max reduce selects the LAST key of the histogram's construction
order, not the first: the histogram is `Monday ↦ 1, Tuesday ↦ 1` (keys in
first-encounter order) and the reported most-active day is `Tuesday`. -/
theorem claim_C3_counterexample :
    (calculateStatistics [mkDayRow "Monday", mkDayRow "Tuesday"]).mostActiveDay =
      [("Monday", 1), ("Tuesday", 1)] ∧
    (calculateStatistics [mkDayRow "Monday", mkDayRow "Tuesday"]).mostActiveDayName =
      "Tuesday" := by
  exact ⟨rfl, rfl⟩

/-- C6 (amended): for every record set, column projection and
single-character delimiter other than the quote and newline characters,
the delimited-text serializer quotes every field with internal quotes
doubled, and splitting its output by the declared delimiter and record
newlines outside quotes while un-escaping doubled quotes recovers every
original field value verbatim — including fields containing the
delimiter, quotes or newlines. -/
theorem claim_C6_csv_round_trip (rows : List EnrichedRow) (columns : List String)
    (d : Char) (h1 : d ≠ '"') (h2 : d ≠ '\n') (h3 : columns ≠ []) :
    parseCsv d (toCsv rows columns (⟨[d]⟩ : String)) =
      columns :: rows.map (fun r => columns.map (fieldValue r)) := by
  unfold parseCsv
  have hnonempty : ∀ vs ∈ columns :: rows.map (fun r => columns.map (fieldValue r)),
      vs ≠ [] := by
    intro vs hvs
    rcases List.mem_cons.mp hvs with rfl | hvs2
    · exact h3
    · rcases List.mem_map.mp hvs2 with ⟨r, _, rfl⟩
      simpa using h3
  have hmap : (columns :: rows.map (fun r => columns.map (fieldValue r))).map
      (fun vs => joinWith (⟨[d]⟩ : String) (vs.map escapeCsv)) =
      joinWith (⟨[d]⟩ : String) (columns.map escapeCsv) ::
        rows.map (fun r =>
          joinWith (⟨[d]⟩ : String) ((columns.map (fieldValue r)).map escapeCsv)) := by
    simp [List.map_map, Function.comp]
  have hdata : (toCsv rows columns (⟨[d]⟩ : String)).data =
      linesOf d (columns :: rows.map (fun r => columns.map (fieldValue r))) := by
    unfold toCsv
    rw [← hmap]
    exact joinWith_lines_data d _ hnonempty (by simp)
  rw [hdata]
  rw [csvScan_lines h1 h2 (columns :: rows.map (fun r => columns.map (fieldValue r)))
    hnonempty (by simp) []]
  rfl

/-- Witness for C6 with a comma delimiter and a field containing the
delimiter, a quote and a newline. -/
theorem claim_C6_csv_round_trip_witness :
    ((',' : Char) ≠ '"' ∧ (',' : Char) ≠ '\n' ∧ (["message", "sender"] : List String) ≠ []) ∧
    parseCsv ','
        (toCsv [{ mkDayRow "Friday" with message := "a,b\"c\nd" }]
          ["message", "sender"] (⟨[',']⟩ : String)) =
      [["message", "sender"], ["a,b\"c\nd", "Alice"]] := by
  refine ⟨⟨by decide, by decide, by decide⟩, ?_⟩
  rw [claim_C6_csv_round_trip [{ mkDayRow "Friday" with message := "a,b\"c\nd" }]
    ["message", "sender"] ',' (by decide) (by decide) (by decide)]
  rfl

/-- C3 (amended): for every record set the arg-max selection over the
per-weekday and per-hour histograms is deterministic and equals the
reference `lastArgmax`: when two or more labels are tied at the maximal
count, the selected label is the LAST key encountered in the histogram's
construction order (which follows record order), not the first. -/
theorem claim_C3_amended_argmax_is_last_maximal (rows : List EnrichedRow) :
    (calculateStatistics rows).mostActiveDayName =
      lastArgmax ((calculateStatistics rows).mostActiveDay) ∧
    (calculateStatistics rows).mostActiveHourValue =
      lastArgmax ((calculateStatistics rows).mostActiveHour) :=
  ⟨jsArgmax_eq_lastArgmax (histFold_wf (fun r => r.dayOfWeek) rows),
   jsArgmax_eq_lastArgmax (histFold_wf (fun r => r.hour) rows)⟩

/-- C7: applying the sender filter and then the date-range filter gives
the same record sequence as the reverse order, and as applying all the
criteria at once; each step is a pure `filter` over an unchanged source
list. -/
theorem claim_C7_filter_commutative (rows : List EnrichedRow) (s dFrom dTo : String) :
    filterRows (filterRows rows ⟨s, "", "", ""⟩) ⟨"", dFrom, dTo, ""⟩ =
      filterRows (filterRows rows ⟨"", dFrom, dTo, ""⟩) ⟨s, "", "", ""⟩ ∧
    filterRows (filterRows rows ⟨s, "", "", ""⟩) ⟨"", dFrom, dTo, ""⟩ =
      filterRows rows ⟨s, dFrom, dTo, ""⟩ := by
  have hswap : ∀ (l : List EnrichedRow) (p q : EnrichedRow → Bool),
      (l.filter p).filter q = (l.filter q).filter p := by
    intro l p q
    rw [List.filter_filter, List.filter_filter]
    exact List.filter_congr (fun a _ => by rw [Bool.and_comm])
  have eS : ∀ l : List EnrichedRow, filterRows l ⟨s, "", "", ""⟩ =
      if (s ≠ "" && s ≠ "all") = true then l.filter (fun r => r.sender = s) else l :=
    fun l => rfl
  have eD : ∀ l : List EnrichedRow, filterRows l ⟨"", dFrom, dTo, ""⟩ =
      if dTo ≠ "" then
        (if dFrom ≠ "" then l.filter (fun r => jsStrLe dFrom r.date) else l).filter
          (fun r => jsStrLe r.date dTo)
      else (if dFrom ≠ "" then l.filter (fun r => jsStrLe dFrom r.date) else l) :=
    fun l => rfl
  constructor
  · simp only [eS, eD]
    split_ifs <;>
    first
      | rfl
      | exact hswap _ _ _
      | exact (hswap _ _ _).symm
      | exact (congrArg (List.filter _) (hswap _ _ _)).trans (hswap _ _ _)
  · rfl

/-- An enriched record whose canonical date is empty (an orphan or
unparsed-date record), used to witness C10. -/
def emptyDateRow : EnrichedRow :=
  { mkDayRow "Friday" with date := "" }

/-- The empty string compares below-or-equal to every string, and any
non-empty string compares strictly above the empty string, in
JavaScript's code-unit order. -/
theorem jsStrLe_nil_left (a : String) : jsStrLe "" a = true := rfl

theorem jsStrLe_nil_right {a : String} (h : a ≠ "") : jsStrLe a "" = false := by
  rcases hdata : a.data with _ | ⟨c, t⟩
  · exfalso
    apply h
    cases a with
    | mk d =>
      have hd : d = [] := hdata
      subst hd
      rfl
  · rw [jsStrLe]
    simp only [utf16Units, hdata, List.flatMap_cons]
    by_cases hc : c.toNat < 0x10000 <;> simp [hc, unitsLe, utf16Units]

/-- C10: the date-range filter treats empty canonical dates
asymmetrically.  A non-empty `dateFrom` excludes every record whose date
is the empty string (the empty string compares below any non-empty date),
while a non-empty `dateTo` alone retains every record with an empty
date. -/
theorem claim_C10_empty_date_asymmetry (rows : List EnrichedRow)
    (dFrom dTo : String) (r : EnrichedRow) :
    (dFrom ≠ "" → r.date = "" → r ∉ filterRows rows ⟨"", dFrom, "", ""⟩) ∧
    (dTo ≠ "" → r.date = "" → r ∈ rows → r ∈ filterRows rows ⟨"", "", dTo, ""⟩) := by
  constructor
  · intro hd hr hmem
    have hred : filterRows rows ⟨"", dFrom, "", ""⟩ =
        if dFrom ≠ "" then rows.filter (fun x => jsStrLe dFrom x.date) else rows := rfl
    rw [hred, if_pos hd] at hmem
    have hpred := (List.mem_filter.mp hmem).2
    rw [hr] at hpred
    rw [jsStrLe_nil_right hd] at hpred
    cases hpred
  · intro hd hr hmem
    have hred : filterRows rows ⟨"", "", dTo, ""⟩ =
        if dTo ≠ "" then rows.filter (fun x => jsStrLe x.date dTo) else rows := rfl
    rw [hred, if_pos hd]
    refine List.mem_filter.mpr ⟨hmem, ?_⟩
    rw [hr]
    exact jsStrLe_nil_left dTo

/-- Witness for C10 at a concrete record and date bounds. -/
theorem claim_C10_empty_date_asymmetry_witness :
    ("2023-01-01" ≠ "" ∧ emptyDateRow.date = "") ∧
    emptyDateRow ∉ filterRows [emptyDateRow] ⟨"", "2023-01-01", "", ""⟩ ∧
    emptyDateRow ∈ filterRows [emptyDateRow] ⟨"", "", "2023-01-01", ""⟩ :=
  ⟨⟨by decide, rfl⟩,
   (claim_C10_empty_date_asymmetry [emptyDateRow] "2023-01-01" "2023-01-01"
     emptyDateRow).1 (by decide) rfl,
   (claim_C10_empty_date_asymmetry [emptyDateRow] "2023-01-01" "2023-01-01"
     emptyDateRow).2 (by decide) rfl (List.mem_singleton_self emptyDateRow)⟩

/-- C9: date and time canonicalization are idempotent — for every input
string `x`, `normalizeDate (normalizeDate x) = normalizeDate x` and
`normalizeTime (normalizeTime x) = normalizeTime x`. -/
theorem claim_C9_canonicalization_idempotent (x : String) :
    normalizeDate (normalizeDate x) = normalizeDate x ∧
    normalizeTime (normalizeTime x) = normalizeTime x :=
  ⟨normalizeDate_idem x, normalizeTime_idem x⟩

/-- C8: `normalizeTime` maps every string the 12-hour regex accepts with
an am/pm marker (with or without periods, case-insensitive, captured by
`match12h` returning a marker) to 24-hour `HH:MM:SS`, with `12 am`
becoming hour `0` and `12 pm` staying `12`; strings already in
`HH:MM[:SS]` form and strings neither regex accepts pass through
unchanged. -/
theorem claim_C8_time_canonicalization :
    (∀ s hour mm ss pm, match12h s = some (hour, mm, ss, some pm) →
      normalizeTime s =
        padStart2 (toString (if pm then (if hour = 12 then 12 else hour + 12)
          else (if hour = 12 then 0 else hour))) ++ ":" ++ mm ++ ":" ++ ss) ∧
    (∀ s, s ≠ "" → isHHMM s = true → normalizeTime s = s) ∧
    (∀ s, s ≠ "" → isHHMM s = false → match12h s = none → normalizeTime s = s) :=
  ⟨fun _ _ _ _ _ hm => normalizeTime_ampm hm,
   fun _ h0 h1 => normalizeTime_eq_self_of_isHHMM h0 h1,
   fun _ h0 h1 h2 => normalizeTime_eq_self_of_unrecognized h0 h1 h2⟩

/-- Witness for C8: a midnight-edge am form, a pm form with periods and
seconds, an already-24-hour form, and an unrecognized form. -/
theorem claim_C8_time_canonicalization_witness :
    normalizeTime "12:30 am" = "00:30:00" ∧
    normalizeTime "7:05:09 P.M." = "19:05:09" ∧
    normalizeTime "23:59" = "23:59" ∧
    normalizeTime "not a time" = "not a time" :=
  ⟨(claim_C8_time_canonicalization.1 "12:30 am" 12 "30" "00" false rfl).trans rfl,
   (claim_C8_time_canonicalization.1 "7:05:09 P.M." 7 "05" "09" true rfl).trans rfl,
   claim_C8_time_canonicalization.2.1 "23:59" (by decide) rfl,
   claim_C8_time_canonicalization.2.2 "not a time" (by decide) rfl rfl⟩

/-- C6 counterexample to the claim quantified over every delimiter: with
the quote character itself as the delimiter, the serializer's output for
the single header field `a` is `"a"`, and splitting it by the declared
delimiter (un-escaping doubled quotes) yields three fields instead of
recovering the original one — the wrapping quotes are read as
delimiters. -/
theorem claim_C6_counterexample :
    parseCsv '"' (toCsv [] ["a"] "\"") = [["", "a", ""]] ∧
    parseCsv '"' (toCsv [] ["a"] "\"") ≠ [["a"]] := by
  have hd : (toCsv [] ["a"] "\"").data = ['"', 'a', '"'] := rfl
  have h1 : parseCsv '"' (toCsv [] ["a"] "\"") = [["", "a", ""]] := by
    unfold parseCsv
    rw [hd]
    rw [csvScan_delim]
    rw [csvScan_false_other (by decide) (by decide) (by decide)]
    rw [csvScan_delim]
    rw [csvScan_false_nil]
    rfl
  exact ⟨h1, by rw [h1]; decide⟩

end WsApp
